import Mathlib

/-!
The credential lifecycle of apple-music-mcp.

A shallow embedding of `pkg/auth/auth.go` and `pkg/config/config.go`.

The Go functions become Lean functions over an explicit world: a file system
(`FS`), a clock that hands out successive readings of `time.Now()`, and a log of
the effects the code performs (signing attempts, outbound HTTP calls, printed
lines).  A Go result `(value, error)` is kept as a pair, so that "a value and
an error are never returned together" is a statement about the code and not
about the type.

The operating system, `encoding/json`, `time`, `crypto/x509`, `encoding/pem`,
`golang-jwt` and `go-apple-music` are not part of the repository.  The OS and
the JSON/time codecs are modelled concretely below; the cryptographic
primitives and the remote service are parameters.
-/

namespace AppleMusic

/-! ## Instants (`time.Time`) -/

/-- A `time.Time`, identified with the instant it denotes: nanoseconds since the
Unix epoch.  The monotonic reading is left out: it is never persisted and the
code only compares a fresh reading against a stored instant, which Go does on
the wall clock.  The location is left out: times are rendered in UTC. -/
structure Time where
  nanos : Int
deriving DecidableEq

/-- One `time.Hour`, in nanoseconds. -/
def hour : Int := 3600 * 1000000000

/-- The validity window used throughout `auth.go`: `180 * 24 * time.Hour`. -/
def validity : Int := 180 * 24 * hour

/-- Go `t.Add(d)`. -/
def Time.Add (t : Time) (d : Int) : Time := ⟨t.nanos + d⟩

/-- Go `t.Unix()`: whole seconds since the epoch, rounded down. -/
def Time.Unix (t : Time) : Int := t.nanos / 1000000000

/-- Go `t.After(u)`: `t` is strictly later than `u`. -/
def Time.After (t u : Time) : Bool := decide (u.nanos < t.nanos)

/-- The zero `time.Time`: 0001-01-01T00:00:00Z. -/
def Time.zero : Time := ⟨-62135596800 * 1000000000⟩

/-! ## The RFC 3339 text of an instant

`time.Time` is written to JSON with `Time.MarshalJSON` (layout `RFC3339Nano`)
and read back with `Time.UnmarshalJSON`.  Days are counted from 1 January of the
year -399, the first year of a 400-year cycle, as Go counts them from its own
absolute epoch. -/

/-- Days from 1 January -399 to 1 January 1970. -/
def unixToAbsDays : Int := 865259

/-- Days before 1 January of the year that is `y` years after -399. -/
def daysBeforeYear (y : Nat) : Nat := 365 * y + y / 4 - y / 100 + y / 400

/-- Go `isLeap`, for the year that is `y` years after -399. -/
def isLeapAbs (y : Nat) : Bool :=
  decide ((y + 1) % 4 = 0 ∧ ((y + 1) % 100 ≠ 0 ∨ (y + 1) % 400 = 0))

/-- Go `absDate`, first half: the years elapsed at absolute day `a` and the
day within that year, by 400-, 100-, 4- and 1-year cycles. -/
def absYear (a : Nat) : Nat × Nat :=
  let n400 := a / 146097
  let r := a % 146097
  let n100 := r / 36524 - r / 36524 / 4
  let r2 := r - 36524 * n100
  let n4 := r2 / 1461
  let r3 := r2 - 1461 * n4
  let n1 := r3 / 365 - r3 / 365 / 4
  (400 * n400 + 100 * n100 + 4 * n4 + n1, r3 - 365 * n1)

/-- Go `daysBefore`: days of a common year before month `m + 1`. -/
def daysBefore : Nat → Nat
  | 0 => 0
  | 1 => 31
  | 2 => 59
  | 3 => 90
  | 4 => 120
  | 5 => 151
  | 6 => 181
  | 7 => 212
  | 8 => 243
  | 9 => 273
  | 10 => 304
  | 11 => 334
  | _ => 365

/-- Go `absDate`, second half: month (1..12) and day of the month of day
`yday` (from 0) of a year. -/
def monthDay (leap : Bool) (yday : Nat) : Nat × Nat :=
  if leap ∧ yday = 59 then (2, 29)
  else
    let day := if leap ∧ 59 < yday then yday - 1 else yday
    let m := day / 31
    if daysBefore (m + 1) ≤ day then (m + 2, day - daysBefore (m + 1) + 1)
    else (m + 1, day - daysBefore m + 1)

/-- Go `daysIn`. -/
def daysIn (leap : Bool) (month : Nat) : Nat :=
  if month = 2 ∧ leap then 29 else daysBefore month - daysBefore (month - 1)

/-- Day of the year (from 0) of a date, as Go `Date` computes it. -/
def yearDay (leap : Bool) (month day : Nat) : Nat :=
  daysBefore (month - 1) + (if leap ∧ 3 ≤ month then 1 else 0) + (day - 1)

/-- The decimal digit `d % 10`. -/
def digitChar (d : Nat) : Char := Char.ofNat (48 + d % 10)

/-- Value of a decimal digit. -/
def digitVal (c : Char) : Option Nat :=
  if 48 ≤ c.toNat ∧ c.toNat ≤ 57 then some (c.toNat - 48) else none

/-- Two decimal digits. -/
def fmt2 (n : Nat) : List Char := [digitChar (n / 10), digitChar n]

/-- Four decimal digits. -/
def fmt4 (n : Nat) : List Char :=
  [digitChar (n / 1000), digitChar (n / 100), digitChar (n / 10), digitChar n]

/-- Digits of a fraction of `k` places with the trailing zeros dropped. -/
def fracDigits : Nat → Nat → List Char
  | 0, _ => []
  | k + 1, v => if v = 0 then [] else digitChar (v / 10 ^ k) :: fracDigits k (v % 10 ^ k)

/-- Go `Time.MarshalJSON`, the text: `2006-01-02T15:04:05.999999999Z`.  Fails when
the year is outside of [0, 9999]. -/
def formatRFC3339 (t : Time) : Option String :=
  let sec := t.nanos / 1000000000
  let ns := (t.nanos % 1000000000).toNat
  let abs := sec / 86400 + unixToAbsDays
  let sod := (sec % 86400).toNat
  if abs < 0 then none
  else
    let yd := absYear abs.toNat
    if yd.1 < 399 ∨ 10398 < yd.1 then none
    else
      let md := monthDay (isLeapAbs yd.1) yd.2
      some (String.mk
        (fmt4 (yd.1 - 399) ++ '-' :: fmt2 md.1 ++ '-' :: fmt2 md.2 ++ 'T' :: fmt2 (sod / 3600)
          ++ ':' :: fmt2 (sod / 60 % 60) ++ ':' :: fmt2 (sod % 60)
          ++ (if ns = 0 then [] else '.' :: fracDigits 9 ns) ++ ['Z']))

/-- Go `parseUint` of `parseRFC3339`: a run of decimal digits. -/
def parseDigits : List Char → Nat → Option Nat
  | [], acc => some acc
  | c :: cs, acc =>
    match digitVal c with
    | some d => parseDigits cs (acc * 10 + d)
    | none => none

/-- Go `parseUint` of `parseRFC3339`: digits, and the value within a range. -/
def parseUint (cs : List Char) (lo hi : Nat) : Option Nat :=
  match parseDigits cs 0 with
  | some x => if lo ≤ x ∧ x ≤ hi then some x else none
  | none => none

/-- The fraction of a second: all the digits that follow are consumed, the
first `k` count. -/
def readFrac : List Char → Nat → Nat → Nat × List Char
  | [], k, acc => (acc * 10 ^ k, [])
  | c :: cs, k, acc =>
    match digitVal c with
    | some d =>
      match k with
      | 0 => readFrac cs 0 acc
      | k + 1 => readFrac cs k (acc * 10 + d)
    | none => (acc * 10 ^ k, c :: cs)

/-- The zone of an RFC 3339 text, in seconds east of UTC. -/
def parseZone : List Char → Option Int
  | [z] => if z = 'Z' then some 0 else none
  | [sg, h1, h2, c, m1, m2] =>
    match parseUint [h1, h2] 0 23, parseUint [m1, m2] 0 59 with
    | some hr, some mm =>
      if c = ':' then
        if sg = '+' then some (((hr * 60 + mm) * 60 : Nat) : Int)
        else if sg = '-' then some (-(((hr * 60 + mm) * 60 : Nat) : Int))
        else none
      else none
    | _, _ => none
  | _ => none

/-- Go `parseRFC3339`, behind `Time.UnmarshalJSON`. -/
def parseRFC3339 (s : String) : Option Time :=
  match s.data with
  | y1 :: y2 :: y3 :: y4 :: c1 :: m1 :: m2 :: c2 :: d1 :: d2 :: c3 :: h1 :: h2 :: c4 :: n1 :: n2
      :: c5 :: s1 :: s2 :: rest =>
    match parseUint [y1, y2, y3, y4] 0 9999 with
    | none => none
    | some year =>
    match parseUint [m1, m2] 1 12 with
    | none => none
    | some month =>
    match parseUint [d1, d2] 1 (daysIn (isLeapAbs (year + 399)) month) with
    | none => none
    | some day =>
    match parseUint [h1, h2] 0 23, parseUint [n1, n2] 0 59, parseUint [s1, s2] 0 59 with
    | some hh, some mi, some ss =>
      if c1 = '-' ∧ c2 = '-' ∧ c3 = 'T' ∧ c4 = ':' ∧ c5 = ':' then
        let frac : Nat × List Char :=
          match rest with
          | p :: d :: more =>
            if p = '.' ∧ (digitVal d).isSome then readFrac (d :: more) 9 0 else (0, rest)
          | _ => (0, rest)
        match parseZone frac.2 with
        | none => none
        | some zone =>
          let days : Int :=
            (daysBeforeYear (year + 399) + yearDay (isLeapAbs (year + 399)) month day : Nat)
              - unixToAbsDays
          let secs : Int := days * 86400 + (hh * 3600 + mi * 60 + ss : Nat) - zone
          some ⟨secs * 1000000000 + frac.1⟩
      else none
    | _, _, _ => none
  | _ => none

/-! ## Paths -/

/-- Elements of a slash-separated path, empty elements included. -/
def pathElemsAux : List Char → List Char → List String
  | [], cur => [String.mk cur.reverse]
  | c :: cs, cur =>
    if c = '/' then String.mk cur.reverse :: pathElemsAux cs []
    else pathElemsAux cs (c :: cur)

/-- Elements of a slash-separated path, empty elements included. -/
def pathElems (p : String) : List String := pathElemsAux p.data []

/-- Lexical clean-up of path elements against the root: empty and `.` elements
are dropped and `..` removes the element before it. -/
def cleanElems : List String → List String → List String
  | [], acc => acc
  | e :: es, acc =>
    if e = "" ∨ e = "." then cleanElems es acc
    else if e = ".." then cleanElems es acc.dropLast
    else cleanElems es (acc ++ [e])

/-- The directory entry a path names, as components below the root (relative
paths are taken from the root). -/
def resolve (p : String) : List String := cleanElems (pathElems p) []

/-- Go `filepath.Dir`: everything before the final separator, cleaned. -/
def filepathDir (p : String) : List String := cleanElems (pathElems p).dropLast []

/-- A path whose last element is empty, `.` or `..` can only name a directory. -/
def namesDir (p : String) : Bool :=
  match (pathElems p).getLast? with
  | some e => decide (e = "" ∨ e = "." ∨ e = "..")
  | none => true

/-! ## JSON documents -/

/-- A JSON value. -/
inductive JVal where
  | null
  | bool (b : Bool)
  | num (literal : String)
  | str (s : String)
  | arr (items : List JVal)
  | obj (members : List (String × JVal))

/-- What a file holds: bytes that form a JSON text, identified with the document
they denote, or any other bytes. -/
inductive FileData where
  | json (doc : JVal)
  | raw (bytes : String)

/-! ## File system -/

/-- The errors of the system calls used. -/
inductive Errno where
  | ENOENT
  | ENOTDIR
  | EISDIR
deriving DecidableEq

/-- Go `os.IsNotExist`. -/
def Errno.IsNotExist : Errno → Bool
  | .ENOENT => true
  | _ => false

/-- A directory entry with its permission bits. -/
inductive Node where
  | dir (mode : Nat)
  | file (mode : Nat) (data : FileData)

/-- Permission bits of an entry. -/
def Node.mode : Node → Nat
  | .dir m => m
  | .file m _ => m

/-- A file system: the entries below the root, and the process umask.  Access
checks are not modelled: the process may read and write every entry. -/
structure FS where
  entries : List String → Option Node
  umask : Nat

/-- The entry at a component list; the root is a directory. -/
def FS.get (fs : FS) : List String → Option Node
  | [] => some (.dir 0o755)
  | p => fs.entries p

/-- The file system with the entry at `p` replaced. -/
def FS.set (fs : FS) (p : List String) (n : Node) : FS :=
  { fs with entries := fun q => if q = p then some n else fs.entries q }

/-- Permission bits left by the umask on creation: `perm &^ umask`. -/
def FS.applyUmask (fs : FS) (perm : Nat) : Nat :=
  perm &&& (0o777 ^^^ (fs.umask &&& 0o777))

/-- Path resolution: every component before the last must be a directory.
Returns the entry at the full path, if there is one. -/
def FS.lookup (fs : FS) : List String → List String → Except Errno (Option Node)
  | pre, [] => .ok (fs.get pre)
  | pre, c :: rest =>
    match fs.get pre with
    | some (.dir _) => FS.lookup fs (pre ++ [c]) rest
    | some (.file _ _) => .error .ENOTDIR
    | none => .error .ENOENT

/-- Go `os.Stat`. -/
def FS.Stat (fs : FS) (path : String) : Except Errno Node :=
  if path = "" then .error .ENOENT else
  match fs.lookup [] (resolve path) with
  | .error e => .error e
  | .ok none => .error .ENOENT
  | .ok (some (.file m d)) => if namesDir path then .error .ENOTDIR else .ok (.file m d)
  | .ok (some (.dir m)) => .ok (.dir m)

/-- Go `os.ReadFile`. -/
def FS.ReadFile (fs : FS) (path : String) : Except Errno FileData :=
  if path = "" then .error .ENOENT else
  match fs.lookup [] (resolve path) with
  | .error e => .error e
  | .ok none => .error .ENOENT
  | .ok (some (.file _ d)) => if namesDir path then .error .ENOTDIR else .ok d
  | .ok (some (.dir _)) => .error .EISDIR

/-- Go `os.WriteFile(path, data, perm)`: open with `O_WRONLY|O_CREATE|O_TRUNC`.
A new file gets `perm` less the umask; an existing file keeps its mode and has
its content replaced. -/
def FS.WriteFile (fs : FS) (path : String) (data : FileData) (perm : Nat) :
    Option Errno × FS :=
  if path = "" then (some .ENOENT, fs) else
  match fs.lookup [] (resolve path) with
  | .error e => (some e, fs)
  | .ok none =>
    if namesDir path then (some .EISDIR, fs)
    else (none, fs.set (resolve path) (.file (fs.applyUmask perm) data))
  | .ok (some (.file m _)) =>
    if namesDir path then (some .ENOTDIR, fs)
    else (none, fs.set (resolve path) (.file m data))
  | .ok (some (.dir _)) => (some .EISDIR, fs)

/-- Walk of `os.MkdirAll` from the directory `pre` down the components still
missing: an existing directory is entered, a file stops the walk, an absent
component is created with `perm` less the umask. -/
def FS.mkdirAllFrom (perm : Nat) : FS → List String → List String → Option Errno × FS
  | fs, _, [] => (none, fs)
  | fs, pre, c :: rest =>
    match fs.get (pre ++ [c]) with
    | some (.dir _) => FS.mkdirAllFrom perm fs (pre ++ [c]) rest
    | some (.file _ _) => (some .ENOTDIR, fs)
    | none =>
      FS.mkdirAllFrom perm (fs.set (pre ++ [c]) (.dir (fs.applyUmask perm))) (pre ++ [c]) rest

/-- Go `os.MkdirAll(dir, perm)`, on the components `filepath.Dir` returned. -/
def FS.MkdirAll (fs : FS) (dir : List String) (perm : Nat) : Option Errno × FS :=
  FS.mkdirAllFrom perm fs [] dir

/-! ## `encoding/json` on `TokenData` -/

/-- Go `TokenData` (`auth.go`), the stored token information. -/
structure TokenData where
  DeveloperToken : String
  UserToken : String
  ExpiresAt : Time
  CreatedAt : Time
deriving DecidableEq

/-- The zero value of `TokenData`, what `var tokenData TokenData` declares. -/
def TokenData.zero : TokenData :=
  { DeveloperToken := "", UserToken := "", ExpiresAt := Time.zero, CreatedAt := Time.zero }

/-- Why `encoding/json` failed. -/
inductive JsonError where
  | invalidText
  | typeMismatch
  | timeFormat
  | yearOutOfRange
deriving DecidableEq

/-- Go `Time.MarshalJSON`. -/
def Time.MarshalJSON (t : Time) : Except JsonError JVal :=
  match formatRFC3339 t with
  | some s => .ok (.str s)
  | none => .error .yearOutOfRange

/-- Go `json.MarshalIndent(data, "", "  ")` on a `*TokenData`: the fields in
declaration order under their `json` tags, `user_token` left out when empty. -/
def marshalTokenData (data : TokenData) : Except JsonError JVal :=
  match data.ExpiresAt.MarshalJSON with
  | .error e => .error e
  | .ok expires =>
    match data.CreatedAt.MarshalJSON with
    | .error e => .error e
    | .ok created =>
      .ok (.obj (("developer_token", .str data.DeveloperToken)
        :: ((if data.UserToken = "" then [] else [("user_token", .str data.UserToken)])
          ++ [("expires_at", expires), ("created_at", created)])))

/-- The fields of `TokenData`. -/
inductive Field where
  | DeveloperToken
  | UserToken
  | ExpiresAt
  | CreatedAt
deriving DecidableEq

/-- The `json` tag of a field. -/
def Field.tag : Field → String
  | .DeveloperToken => "developer_token"
  | .UserToken => "user_token"
  | .ExpiresAt => "expires_at"
  | .CreatedAt => "created_at"

/-- Simple case folding onto the lower-case ASCII letters: the capitals, the
Kelvin sign and the long s. -/
def foldRune (c : Char) : Char :=
  if 65 ≤ c.toNat ∧ c.toNat ≤ 90 then Char.ofNat (c.toNat + 32)
  else if c.toNat = 0x212A then 'k'
  else if c.toNat = 0x17F then 's'
  else c

/-- The field an object key is decoded into: `encoding/json` matches the tag
up to case folding. -/
def findField (key : String) : Option Field :=
  [Field.DeveloperToken, Field.UserToken, Field.ExpiresAt, Field.CreatedAt].find?
    (fun f => key.data.map foldRune = f.tag.data.map foldRune)

/-- Decoding into a `string` field: a JSON string is stored, `null` leaves the
field as it is, any other value is a type error. -/
def decodeString (v : JVal) (old : String) : Option String :=
  match v with
  | .str s => some s
  | .null => some old
  | _ => none

/-- Go `Time.UnmarshalJSON`: `null` leaves the field as it is, a string is read
as RFC 3339, anything else is an error. -/
def Time.UnmarshalJSON (v : JVal) (old : Time) : Except JsonError Time :=
  match v with
  | .null => .ok old
  | .str s =>
    match parseRFC3339 s with
    | some t => .ok t
    | none => .error .timeFormat
  | _ => .error .timeFormat

/-- Decoding of the members of an object into `data`, in order.  A type error
on a string field is remembered (`saved`) and decoding goes on; an error from
`Time.UnmarshalJSON` stops it.  Keys that match no field are skipped. -/
def decodeMembers : List (String × JVal) → TokenData → Option JsonError →
    Except JsonError TokenData
  | [], data, none => .ok data
  | [], _, some e => .error e
  | (key, v) :: rest, data, saved =>
    match findField key with
    | none => decodeMembers rest data saved
    | some .DeveloperToken =>
      match decodeString v data.DeveloperToken with
      | some s => decodeMembers rest { data with DeveloperToken := s } saved
      | none => decodeMembers rest data (saved.orElse fun _ => some .typeMismatch)
    | some .UserToken =>
      match decodeString v data.UserToken with
      | some s => decodeMembers rest { data with UserToken := s } saved
      | none => decodeMembers rest data (saved.orElse fun _ => some .typeMismatch)
    | some .ExpiresAt =>
      match Time.UnmarshalJSON v data.ExpiresAt with
      | .ok t => decodeMembers rest { data with ExpiresAt := t } saved
      | .error e => .error e
    | some .CreatedAt =>
      match Time.UnmarshalJSON v data.CreatedAt with
      | .ok t => decodeMembers rest { data with CreatedAt := t } saved
      | .error e => .error e

/-- Go `json.Unmarshal(data, &tokenData)` into a fresh `TokenData`: bytes that
are no JSON text are a syntax error, `null` changes nothing, an object is
decoded member by member, any other value is a type error. -/
def unmarshalTokenData : FileData → Except JsonError TokenData
  | .raw _ => .error .invalidText
  | .json .null => .ok TokenData.zero
  | .json (.obj members) => decodeMembers members TokenData.zero none
  | .json _ => .error .typeMismatch

/-! ## Errors of `pkg/auth` -/

/-- The errors `auth.go` builds with `fmt.Errorf`, with their causes. -/
inductive AuthError where
  | createStorageDir (cause : Errno)
  | marshalTokenData (cause : JsonError)
  | writeTokenFile (cause : Errno)
  | noTokens
  | readTokenFile (cause : Errno)
  | parseTokenFile (cause : JsonError)
  | readPrivateKey (cause : Errno)
  | decodePEM
  | parsePrivateKey (cause : String)
  | notECDSA
  | signToken (cause : String)
  | generateDeveloperToken (cause : AuthError)
  | saveTokens (cause : AuthError)
  | tokenExpired
  | getStorefront (cause : String)
deriving DecidableEq

/-- The text of `Errno`. -/
def Errno.message : Errno → String
  | .ENOENT => "no such file or directory"
  | .ENOTDIR => "not a directory"
  | .EISDIR => "is a directory"

/-- The text of a `JsonError`. -/
def JsonError.message : JsonError → String
  | .invalidText => "invalid character"
  | .typeMismatch => "json: cannot unmarshal value into Go value"
  | .timeFormat => "parsing time: cannot parse"
  | .yearOutOfRange => "Time.MarshalJSON: year outside of range [0,9999]"

/-- The message of an error, as the format strings of `auth.go` give it. -/
def AuthError.message : AuthError → String
  | .createStorageDir c => "failed to create storage directory: " ++ c.message
  | .marshalTokenData c => "failed to marshal token data: " ++ c.message
  | .writeTokenFile c => "failed to write token file: " ++ c.message
  | .noTokens => "no tokens found, please authenticate first"
  | .readTokenFile c => "failed to read token file: " ++ c.message
  | .parseTokenFile c => "failed to parse token file: " ++ c.message
  | .readPrivateKey c => "failed to read private key: " ++ c.message
  | .decodePEM => "failed to decode PEM block"
  | .parsePrivateKey c => "failed to parse private key: " ++ c
  | .notECDSA => "private key is not ECDSA"
  | .signToken c => "failed to sign token: " ++ c
  | .generateDeveloperToken c => "failed to generate developer token: " ++ c.message
  | .saveTokens c => "failed to save tokens: " ++ c.message
  | .tokenExpired => "token expired, please authenticate again"
  | .getStorefront c => "failed to get user storefront: " ++ c

/-! ## `TokenStorage` -/

/-- Go `TokenStorage`. -/
structure TokenStorage where
  databasePath : String
deriving DecidableEq

/-- Go `NewTokenStorage`. -/
def NewTokenStorage (databasePath : String) : TokenStorage := { databasePath := databasePath }

/-- Go `TokenStorage.SaveTokens`. -/
def TokenStorage.SaveTokens (ts : TokenStorage) (data : TokenData) (fs : FS) :
    Option AuthError × FS :=
  let dir := filepathDir ts.databasePath
  match fs.MkdirAll dir 0o755 with
  | (some err, fs1) => (some (.createStorageDir err), fs1)
  | (none, fs1) =>
    match marshalTokenData data with
    | .error err => (some (.marshalTokenData err), fs1)
    | .ok jsonData =>
      match fs1.WriteFile ts.databasePath (.json jsonData) 0o600 with
      | (some err, fs2) => (some (.writeTokenFile err), fs2)
      | (none, fs2) => (none, fs2)

/-- Go `TokenStorage.LoadTokens`: the pair `(*TokenData, error)`. -/
def TokenStorage.LoadTokens (ts : TokenStorage) (fs : FS) :
    Option TokenData × Option AuthError :=
  match fs.ReadFile ts.databasePath with
  | .error err =>
    if err.IsNotExist then (none, some .noTokens)
    else (none, some (.readTokenFile err))
  | .ok data =>
    match unmarshalTokenData data with
    | .error err => (none, some (.parseTokenFile err))
    | .ok tokenData => (some tokenData, none)

/-! ## `pkg/config` -/

/-- Go `AppleMusicConfig`. -/
structure AppleMusicConfig where
  TeamID : String
  KeyID : String
  PrivateKeyPath : String
deriving DecidableEq

/-- Go `StorageConfig`. -/
structure StorageConfig where
  DatabasePath : String
deriving DecidableEq

/-- Go `Config`. -/
structure Config where
  AppleMusic : AppleMusicConfig
  Storage : StorageConfig
deriving DecidableEq

/-- The errors of `config.go`. -/
inductive ConfigError where
  | teamIDRequired
  | keyIDRequired
  | privateKeyPathRequired
  | privateKeyNotFound (path : String)
  | readConfigFile (cause : Errno)
  | parseConfigFile (cause : String)
deriving DecidableEq

/-- The message of an error, as the format strings of `config.go` give it. -/
def ConfigError.message : ConfigError → String
  | .teamIDRequired => "apple_music.team_id is required"
  | .keyIDRequired => "apple_music.key_id is required"
  | .privateKeyPathRequired => "apple_music.private_key_path is required"
  | .privateKeyNotFound p => "private key file not found: " ++ p
  | .readConfigFile c => "failed to read config file: " ++ c.message
  | .parseConfigFile c => "failed to parse config file: " ++ c

/-- Go `filepath.Join`: the non-empty elements, separated by a slash. -/
def filepathJoin : List String → String
  | [] => ""
  | e :: es =>
    if e = "" then filepathJoin es
    else if filepathJoin es = "" then e
    else e ++ "/" ++ filepathJoin es

/-- Go `DefaultConfig`; `homeDir` is what `os.UserHomeDir()` returns. -/
def DefaultConfig (homeDir : String) : Config :=
  { AppleMusic := { TeamID := "", KeyID := "", PrivateKeyPath := "" }
    Storage :=
      { DatabasePath := filepathJoin [homeDir, ".local", "share", "apple-music-mcp", "data.db"] } }

/-- Go `LoadFromPath`; `yamlUnmarshal` is `yaml.Unmarshal` into a `Config`. -/
def LoadFromPath (yamlUnmarshal : FileData → Except String Config) (homeDir : String)
    (fs : FS) (path : String) : Option Config × Option ConfigError :=
  match fs.ReadFile path with
  | .error err =>
    if err.IsNotExist then (some (DefaultConfig homeDir), none)
    else (none, some (.readConfigFile err))
  | .ok data =>
    match yamlUnmarshal data with
    | .error err => (none, some (.parseConfigFile err))
    | .ok config =>
      let defaultConfig := DefaultConfig homeDir
      if config.Storage.DatabasePath = "" then
        (some { config with Storage := { DatabasePath := defaultConfig.Storage.DatabasePath } },
          none)
      else (some config, none)

/-- Go `Config.Validate`: the error returned, `none` for `nil`. -/
def Config.Validate (c : Config) (fs : FS) : Option ConfigError :=
  if c.AppleMusic.TeamID = "" then some .teamIDRequired
  else if c.AppleMusic.KeyID = "" then some .keyIDRequired
  else if c.AppleMusic.PrivateKeyPath = "" then some .privateKeyPathRequired
  else
    match fs.Stat c.AppleMusic.PrivateKeyPath with
    | .error err =>
      if err.IsNotExist then some (.privateKeyNotFound c.AppleMusic.PrivateKeyPath) else none
    | .ok _ => none

/-! ## Keys and tokens -/

/-- What `x509.ParsePKCS8PrivateKey` can return: a key of one of four types. -/
inductive PrivateKey where
  | rsa (key : String)
  | ecdsa (key : String)
  | ed25519 (key : String)
  | ecdh (key : String)
deriving DecidableEq

/-- The signing methods of `golang-jwt` by name. -/
inductive SigningMethod where
  | ES256
  | ES384
  | ES512
  | RS256
  | HS256
deriving DecidableEq

/-- Go `SigningMethod.Alg()`. -/
def SigningMethod.Alg : SigningMethod → String
  | .ES256 => "ES256"
  | .ES384 => "ES384"
  | .ES512 => "ES512"
  | .RS256 => "RS256"
  | .HS256 => "HS256"

/-- A value of `jwt.MapClaims` as the code fills it: a string or an `int64`. -/
inductive ClaimValue where
  | str (s : String)
  | int (n : Int)
deriving DecidableEq

/-- A Go `map[string]V` as the list of its entries, one per key. -/
def mapSet {V : Type} (m : List (String × V)) (key : String) (v : V) : List (String × V) :=
  m.filter (fun e => e.1 ≠ key) ++ [(key, v)]

/-- Go `jwt.Token` before it is signed. -/
structure Token where
  Method : SigningMethod
  Header : List (String × String)
  Claims : List (String × ClaimValue)
deriving DecidableEq

/-- Go `jwt.NewWithClaims`. -/
def NewWithClaims (method : SigningMethod) (claims : List (String × ClaimValue)) : Token :=
  { Method := method, Header := [("typ", "JWT"), ("alg", method.Alg)], Claims := claims }

/-- The library calls of `generateDeveloperToken` that are not modelled:
`pem.Decode` (the bytes of the first block), `x509.ParsePKCS8PrivateKey` and
`Token.SignedString`. -/
structure Crypto where
  pemDecode : String → Option String
  ParsePKCS8PrivateKey : String → Except String PrivateKey
  SignedString : Token → String → Except String String

/-- Go `pem.Decode` on the content of a file: the bytes of the first PEM block.
A JSON text holds no PEM block. -/
def Crypto.Decode (lib : Crypto) : FileData → Option String
  | .raw bytes => lib.pemDecode bytes
  | .json _ => none

/-- Go `applemusic.Transport`. -/
structure Transport where
  Token : String
  MusicUserToken : String
deriving DecidableEq

/-- Go `applemusic.Client`, identified with the transport it sends through. -/
structure Client where
  transport : Transport
deriving DecidableEq

/-- One entry of `Storefronts.Data`; `Kind` is the Go field `Type`. -/
structure Storefront where
  Id : String
  Kind : String
  Name : String
  DefaultLanguageTag : String
  SupportedLanguageTags : List String
deriving DecidableEq

/-- What `client.Me.GetStorefront` returns: `(storefronts, resp, err)`;
`storefronts` is the `Data` of a non-nil result, `resp` the `Status` of a
non-nil response. -/
structure StorefrontReply where
  storefronts : Option (List Storefront)
  resp : Option String
  err : Option String
deriving DecidableEq

/-! ## The world -/

/-- An effect the code performs outside of the file system. -/
inductive Event where
  | signed (token : Token)
  | http (transport : Transport)
  | print (line : String)
deriving DecidableEq

/-- The state the code runs in: the file system, the readings `time.Now()` will
return (`clock n` is the `n`-th), the number of readings taken, and the effects
performed so far, latest first. -/
structure World where
  fs : FS
  clock : Nat → Time
  tick : Nat
  log : List Event

/-- Go `time.Now()`. -/
def World.Now (w : World) : Time × World := (w.clock w.tick, { w with tick := w.tick + 1 })

/-- Go `fmt.Println`. -/
def World.Println (w : World) (line : String) : World := { w with log := .print line :: w.log }

/-! ## `AuthManager` -/

/-- Go `AuthManager`. -/
structure AuthManager where
  config : Config
  storage : TokenStorage
deriving DecidableEq

/-- Go `NewAuthManager`. -/
def NewAuthManager (cfg : Config) : AuthManager :=
  { config := cfg, storage := NewTokenStorage cfg.Storage.DatabasePath }

/-- The token `generateDeveloperToken` builds at clock reading `now`, before it
signs it (lines 115 to 123 of `auth.go`). -/
def AuthManager.newToken (am : AuthManager) (now : Time) : Token :=
  let token := NewWithClaims .ES256
    [("iss", .str am.config.AppleMusic.TeamID),
     ("iat", .int now.Unix),
     ("exp", .int (now.Add validity).Unix)]
  { token with Header := mapSet token.Header "kid" am.config.AppleMusic.KeyID }

/-- Go `AuthManager.generateDeveloperToken`: the pair `(string, error)`. -/
def AuthManager.generateDeveloperToken (lib : Crypto) (am : AuthManager) (w : World) :
    (String × Option AuthError) × World :=
  match w.fs.ReadFile am.config.AppleMusic.PrivateKeyPath with
  | .error err => (("", some (.readPrivateKey err)), w)
  | .ok keyData =>
    match lib.Decode keyData with
    | none => (("", some .decodePEM), w)
    | some blockBytes =>
      match lib.ParsePKCS8PrivateKey blockBytes with
      | .error err => (("", some (.parsePrivateKey err)), w)
      | .ok privateKey =>
        match privateKey with
        | .ecdsa ecdsaKey =>
          let (now, w1) := w.Now
          let token := am.newToken now
          let w2 := { w1 with log := .signed token :: w1.log }
          match lib.SignedString token ecdsaKey with
          | .error err => (("", some (.signToken err)), w2)
          | .ok tokenString => ((tokenString, none), w2)
        | _ => (("", some .notECDSA), w)

/-- Go `AuthManager.Authenticate`. -/
def AuthManager.Authenticate (lib : Crypto) (am : AuthManager) (w : World) :
    Option AuthError × World :=
  match am.generateDeveloperToken lib w with
  | ((_, some err), w1) => (some (.generateDeveloperToken err), w1)
  | ((developerToken, none), w1) =>
    let (t2, w2) := w1.Now
    let (t3, w3) := w2.Now
    let tokenData : TokenData :=
      { DeveloperToken := developerToken
        UserToken := ""
        ExpiresAt := t2.Add validity
        CreatedAt := t3 }
    match am.storage.SaveTokens tokenData w3.fs with
    | (some err, fs1) => (some (.saveTokens err), { w3 with fs := fs1 })
    | (none, fs1) =>
      let w4 := { w3 with fs := fs1 }
      let w5 := w4.Println "Authentication successful! Developer token generated and saved."
      let w6 := w5.Println "Note: This is a basic implementation with developer token only."
      let w7 := w6.Println "For full functionality, user authentication would be required."
      (none, w7)

/-- Go `AuthManager.GetClient`: the pair `(*applemusic.Client, error)`. -/
def AuthManager.GetClient (am : AuthManager) (w : World) :
    (Option Client × Option AuthError) × World :=
  match am.storage.LoadTokens w.fs with
  | (_, some err) => ((none, some err), w)
  | (none, none) => ((none, none), w)
  | (some tokenData, none) =>
    let (now, w1) := w.Now
    if now.After tokenData.ExpiresAt then ((none, some .tokenExpired), w1)
    else
      let transport : Transport := { Token := tokenData.DeveloperToken, MusicUserToken := "" }
      let transport :=
        if tokenData.UserToken ≠ "" then { transport with MusicUserToken := tokenData.UserToken }
        else transport
      ((some { transport := transport }, none), w1)

/-- A storefront as `GetUserInfo` reports it; `kind` is the key `type`. -/
structure StorefrontInfo where
  id : String
  kind : String
  name : String
  default_language : String
  supported_languages : List String
deriving DecidableEq

/-- The map `GetUserInfo` returns, one optional field per key it may set. -/
structure UserInfo where
  authentication_status : String
  token_type : String
  storefront : Option StorefrontInfo
  api_response_status : Option String
  token_created : Option Time
  token_expires : Option Time
  has_user_token : Option Bool
deriving DecidableEq

/-- Go `AuthManager.GetUserInfo`; `remote` is what the Apple Music service
answers to a request sent through a transport (a failure of the call, a timeout
of `ctx` included, is an answer with `err` set). -/
def AuthManager.GetUserInfo (remote : Transport → StorefrontReply) (am : AuthManager)
    (w : World) : (Option UserInfo × Option AuthError) × World :=
  match am.GetClient w with
  | ((_, some err), w1) => ((none, some err), w1)
  | ((none, none), w1) => ((none, none), w1)
  | ((some client, none), w1) =>
    let w2 := { w1 with log := .http client.transport :: w1.log }
    let reply := remote client.transport
    match reply.err with
    | some err => ((none, some (.getStorefront err)), w2)
    | none =>
      let info : UserInfo :=
        { authentication_status := "authenticated"
          token_type := "developer_token"
          storefront := none
          api_response_status := none
          token_created := none
          token_expires := none
          has_user_token := none }
      let info :=
        match reply.storefronts with
        | some (storefront :: _) =>
          let entry : StorefrontInfo :=
            { id := storefront.Id
              kind := storefront.Kind
              name := storefront.Name
              default_language := storefront.DefaultLanguageTag
              supported_languages := storefront.SupportedLanguageTags }
          { info with storefront := some entry }
        | _ => info
      let info :=
        match reply.resp with
        | some status => { info with api_response_status := some status }
        | none => info
      let info :=
        match am.storage.LoadTokens w2.fs with
        | (some tokenData, none) =>
          { info with
            token_created := some tokenData.CreatedAt
            token_expires := some tokenData.ExpiresAt
            has_user_token := some (decide (tokenData.UserToken ≠ "")) }
        | _ => info
      ((some info, none), w2)

/-! ## Sample states

Concrete states on which the statements below are evaluated. -/

/-- A node is a directory. -/
def Node.isDir : Node → Bool
  | .dir _ => true
  | .file _ _ => false

/-- A file system with nothing below the root and the usual umask. -/
def emptyFS : FS := { entries := fun _ => none, umask := 0o022 }

/-- A file system that holds `/data/tokens.json` with the given mode and content. -/
def fsWithTokens (mode : Nat) (data : FileData) : FS :=
  { entries := fun p =>
      if p = ["data"] then some (.dir 0o755)
      else if p = ["data", "tokens.json"] then some (.file mode data)
      else none
    umask := 0o022 }

/-- The storage at `/data/tokens.json`. -/
def sampleStorage : TokenStorage := NewTokenStorage "/data/tokens.json"

/-- A record issued 2024-11-04T17:06:40Z, valid for 180 days. -/
def sampleRecord : TokenData :=
  { DeveloperToken := "token-a"
    UserToken := ""
    ExpiresAt := ⟨1746292000000000000⟩
    CreatedAt := ⟨1730740000000000000⟩ }

/-- The JSON text of an older record, which carries a user token. -/
def olderDoc : JVal :=
  .obj [("developer_token", .str "token-old"), ("user_token", .str "user-old"),
    ("expires_at", .str "2024-06-01T00:00:00Z"), ("created_at", .str "2023-12-04T00:00:00Z")]

/-- The JSON text of `sampleRecord`. -/
def sampleDoc : JVal :=
  .obj [("developer_token", .str "token-a"),
    ("expires_at", .str "2025-05-03T17:06:40Z"), ("created_at", .str "2024-11-04T17:06:40Z")]

/-- A configuration whose key is at `/key.p8` and whose storage is
`/data/tokens.json`. -/
def sampleConfig : Config :=
  { AppleMusic := { TeamID := "TEST123", KeyID := "TESTKEY", PrivateKeyPath := "/key.p8" }
    Storage := { DatabasePath := "/data/tokens.json" } }

/-- The manager of `sampleConfig`. -/
def sampleManager : AuthManager := NewAuthManager sampleConfig

/-- Stand-ins for the cryptographic library: the key file `EC` holds an ECDSA
key, `RSA` an RSA key, `DSA` a block that does not parse, anything else no
PEM block; a signature is the issuer followed by the key. -/
def sampleCrypto : Crypto :=
  { pemDecode := fun bytes =>
      if bytes = "EC" ∨ bytes = "RSA" ∨ bytes = "DSA" then some bytes else none
    ParsePKCS8PrivateKey := fun der =>
      if der = "EC" then .ok (.ecdsa "p256")
      else if der = "RSA" then .ok (.rsa "rsa2048")
      else .error "x509: unknown algorithm"
    SignedString := fun token key =>
      match token.Claims with
      | (_, .str iss) :: _ => .ok (iss ++ "." ++ key)
      | _ => .error "no issuer" }

/-- A file system that holds only the key file `/key.p8`. -/
def fsWithKey (bytes : String) : FS :=
  { entries := fun p => if p = ["key.p8"] then some (.file 0o600 (.raw bytes)) else none
    umask := 0o022 }

/-- A world at its first clock reading, with nothing logged. -/
def worldOf (fs : FS) (clock : Nat → Time) : World :=
  { fs := fs, clock := clock, tick := 0, log := [] }

/-- A clock that starts at 2024-11-04T17:06:40Z and advances one second per
reading. -/
def tickingClock (n : Nat) : Time := ⟨1730740000000000000 + 1000000000 * n⟩

/-- A clock stopped at the instant `sampleRecord` expires. -/
def clockAtExpiry (_ : Nat) : Time := ⟨1746292000000000000⟩

/-- A remote service that answers with one storefront. -/
def remoteUp (_ : Transport) : StorefrontReply :=
  { storefronts := some [⟨"us", "storefronts", "United States", "en-US", ["en-US"]⟩]
    resp := some "200 OK"
    err := none }

/-- A remote service that cannot be reached. -/
def remoteDown (_ : Transport) : StorefrontReply :=
  { storefronts := none, resp := none, err := some "dial tcp: connection refused" }

/-- The algorithm of a private key. -/
inductive KeyAlgorithm where
  | rsa
  | ecdsa
  | dsa
deriving DecidableEq

/-- The algorithm is an elliptic-curve one. -/
def KeyAlgorithm.isEllipticCurve : KeyAlgorithm → Bool
  | .ecdsa => true
  | _ => false

/-- The private key each PEM block of `sampleCrypto` holds: `EC` a P-256 key
and `RSA` an RSA key, both as PKCS#8, and `DSA` a DSA key, an algorithm
`x509.ParsePKCS8PrivateKey` does not accept. -/
def sampleBlockAlgorithm (block : String) : Option KeyAlgorithm :=
  if block = "EC" then some .ecdsa
  else if block = "RSA" then some .rsa
  else if block = "DSA" then some .dsa
  else none

/-! # Theorems -/


/-! ## The RFC 3339 text round trip -/

theorem digitVal_digitChar (d : Nat) : digitVal (digitChar d) = some (d % 10) := by
  have h : d % 10 < 10 := Nat.mod_lt _ (by decide)
  unfold digitChar
  generalize d % 10 = r at h
  interval_cases r <;> rfl

theorem parseUint_fmt2 (n lo hi : Nat) (h : n < 100) (h1 : lo ≤ n) (h2 : n ≤ hi) :
    parseUint (fmt2 n) lo hi = some n := by
  simp only [parseUint, fmt2, parseDigits, digitVal_digitChar]
  have e : (0 * 10 + n / 10 % 10) * 10 + n % 10 = n := by omega
  rw [e]
  simp [h1, h2]

theorem parseUint_fmt4 (n lo hi : Nat) (h : n < 10000) (h1 : lo ≤ n) (h2 : n ≤ hi) :
    parseUint (fmt4 n) lo hi = some n := by
  simp only [parseUint, fmt4, parseDigits, digitVal_digitChar]
  have e : (((0 * 10 + n / 1000 % 10) * 10 + n / 100 % 10) * 10 + n / 10 % 10) * 10 + n % 10
      = n := by omega
  rw [e]
  simp [h1, h2]

theorem readFrac_fracDigits (k : Nat) : ∀ v acc : Nat, v < 10 ^ k →
    readFrac (fracDigits k v ++ ['Z']) k acc = (acc * 10 ^ k + v, ['Z']) := by
  induction k with
  | zero =>
    intro v acc h
    have hv : v = 0 := by simpa using h
    subst hv
    rfl
  | succ k ih =>
    intro v acc h
    by_cases hv : v = 0
    · subst hv
      simp only [fracDigits, if_true, List.nil_append]
      rfl
    · have hp : 0 < 10 ^ k := Nat.pow_pos (by decide)
      have hq : v / 10 ^ k < 10 := by
        rw [Nat.div_lt_iff_lt_mul hp]
        rw [Nat.pow_succ] at h
        omega
      have hm : v % 10 ^ k < 10 ^ k := Nat.mod_lt _ hp
      simp only [fracDigits, hv, if_false, List.cons_append, readFrac, digitVal_digitChar]
      rw [ih _ _ hm, Nat.mod_eq_of_lt hq]
      congr 1
      have := Nat.div_add_mod v (10 ^ k)
      rw [Nat.pow_succ]
      nlinarith

theorem absYear_spec (a : Nat) :
    daysBeforeYear (absYear a).1 + (absYear a).2 = a ∧
      (absYear a).2 < (if isLeapAbs (absYear a).1 then 366 else 365) := by
  have key : ∀ n400 r n100 r2 n4 r3 n1 : Nat, r < 146097 →
      n100 = r / 36524 - r / 36524 / 4 → r2 = r - 36524 * n100 → n4 = r2 / 1461 →
      r3 = r2 - 1461 * n4 → n1 = r3 / 365 - r3 / 365 / 4 →
      daysBeforeYear (400 * n400 + 100 * n100 + 4 * n4 + n1) + (r3 - 365 * n1)
          = 146097 * n400 + r ∧
        r3 - 365 * n1 <
          (if isLeapAbs (400 * n400 + 100 * n100 + 4 * n4 + n1) then 366 else 365) := by
    intro n400 r n100 r2 n4 r3 n1 hr h100 hr2 h4 hr3 h1
    have a1 : n100 ≤ 3 := by omega
    have a2 : n4 ≤ 24 := by omega
    have a3 : n1 ≤ 3 := by omega
    have a4 : r = 36524 * n100 + 1461 * n4 + 365 * n1 + (r3 - 365 * n1) := by omega
    have a5 : r3 - 365 * n1 < 365 ∨
        (r3 - 365 * n1 = 365 ∧ n1 = 3 ∧ (n4 < 24 ∨ n100 = 3)) := by omega
    have a6 : daysBeforeYear (400 * n400 + 100 * n100 + 4 * n4 + n1)
        = 146097 * n400 + 36524 * n100 + 1461 * n4 + 365 * n1 := by
      unfold daysBeforeYear
      interval_cases n100 <;> interval_cases n1 <;> omega
    refine ⟨by omega, ?_⟩
    unfold isLeapAbs
    split
    · omega
    · rename_i hl
      rcases a5 with a5 | ⟨_, b1, b2⟩
      · exact a5
      · exfalso
        apply hl
        simp only [decide_eq_true_eq]
        subst b1
        rcases b2 with b2 | b2
        · interval_cases n100 <;> omega
        · subst b2
          omega
  have h := key (a / 146097) (a % 146097) _ _ _ _ _ (Nat.mod_lt _ (by decide)) rfl rfl rfl rfl rfl
  have e : 146097 * (a / 146097) + a % 146097 = a := Nat.div_add_mod a 146097
  rw [e] at h
  exact h

set_option maxRecDepth 1000000 in
theorem monthDay_spec : ∀ leap : Bool, ∀ yday : Nat, yday < 366 →
    yday < (if leap then 366 else 365) →
    1 ≤ (monthDay leap yday).1 ∧ (monthDay leap yday).1 ≤ 12 ∧ 1 ≤ (monthDay leap yday).2 ∧
      (monthDay leap yday).2 ≤ daysIn leap (monthDay leap yday).1 ∧
      yearDay leap (monthDay leap yday).1 (monthDay leap yday).2 = yday := by
  decide


theorem digitVal_Z : digitVal 'Z' = none := by decide

theorem parseRFC3339_text (year month day hh mi ss ns : Nat) (hy : year ≤ 9999)
    (hm1 : 1 ≤ month) (hm2 : month ≤ 12) (hd1 : 1 ≤ day)
    (hd2 : day ≤ daysIn (isLeapAbs (year + 399)) month) (hd3 : day < 100)
    (hh2 : hh ≤ 23) (hmi : mi ≤ 59) (hss : ss ≤ 59) (hns : ns < 10 ^ 9) :
    parseRFC3339 (String.mk
        (fmt4 year ++ '-' :: fmt2 month ++ '-' :: fmt2 day ++ 'T' :: fmt2 hh
          ++ ':' :: fmt2 mi ++ ':' :: fmt2 ss
          ++ (if ns = 0 then [] else '.' :: fracDigits 9 ns) ++ ['Z']))
      = some ⟨((((daysBeforeYear (year + 399) + yearDay (isLeapAbs (year + 399)) month day : Nat)
            : Int) - unixToAbsDays) * 86400 + ((hh * 3600 + mi * 60 + ss : Nat) : Int) - 0)
          * 1000000000 + (ns : Nat)⟩ := by
  have py := parseUint_fmt4 year 0 9999 (by omega) (by omega) hy
  have pm := parseUint_fmt2 month 1 12 (by omega) hm1 hm2
  have pd := parseUint_fmt2 day 1 (daysIn (isLeapAbs (year + 399)) month) hd3 hd1 hd2
  have ph := parseUint_fmt2 hh 0 23 (by omega) (by omega) hh2
  have pi := parseUint_fmt2 mi 0 59 (by omega) (by omega) hmi
  have ps := parseUint_fmt2 ss 0 59 (by omega) (by omega) hss
  simp only [fmt4, fmt2] at py pm pd ph pi ps
  by_cases h0 : ns = 0
  · subst h0
    simp only [parseRFC3339, fmt4, fmt2, List.cons_append, List.nil_append, if_true, py, pm, pd,
      ph, pi, ps, and_self, parseZone]
  · have hf := readFrac_fracDigits 9 ns 0 hns
    have hc : fracDigits 9 ns = digitChar (ns / 10 ^ 8) :: fracDigits 8 (ns % 10 ^ 8) := by
      simp [fracDigits, h0]
    rw [hc] at hf
    simp only [List.cons_append] at hf
    simp only [parseRFC3339, fmt4, fmt2, List.cons_append, List.nil_append, h0, if_false, py, pm,
      pd, ph, pi, ps, and_self, if_true, hc, digitVal_digitChar, Option.isSome_some, hf,
      parseZone]
    simp

theorem parseRFC3339_formatRFC3339 (t : Time) (s : String) (h : formatRFC3339 t = some s) :
    parseRFC3339 s = some t := by
  unfold formatRFC3339 at h
  simp only at h
  split at h
  · exact absurd h (by simp)
  rename_i habs
  split at h
  · exact absurd h (by simp)
  rename_i hyr
  have hs := Option.some.inj h
  subst hs
  generalize hA : (t.nanos / 1000000000 / 86400 + unixToAbsDays).toNat = a at *
  obtain ⟨y1, y2⟩ := absYear_spec a
  have y3 : (absYear a).2 < 366 := by
    split at y2 <;> omega
  obtain ⟨m1, m2, d1, d2, yd⟩ := monthDay_spec (isLeapAbs (absYear a).1) (absYear a).2 y3 y2
  have e399 : (absYear a).1 - 399 + 399 = (absYear a).1 := by omega
  have d3 : (monthDay (isLeapAbs (absYear a).1) (absYear a).2).2 < 100 := by
    have : daysIn (isLeapAbs (absYear a).1) (monthDay (isLeapAbs (absYear a).1) (absYear a).2).1
        ≤ 31 := by
      generalize (monthDay (isLeapAbs (absYear a).1) (absYear a).2).1 = m at m1 m2
      generalize isLeapAbs (absYear a).1 = l
      interval_cases m <;> cases l <;> decide
    omega
  have hsod : 0 ≤ t.nanos / 1000000000 % 86400 ∧ t.nanos / 1000000000 % 86400 < 86400 := by
    omega
  have hns : 0 ≤ t.nanos % 1000000000 ∧ t.nanos % 1000000000 < 1000000000 := by omega
  rw [parseRFC3339_text ((absYear a).1 - 399) _ _ _ _ _ _ (by omega) m1 m2 d1
    (by rw [e399]; exact d2) d3 (by omega) (by omega) (by omega) (by omega)]
  rw [e399, yd]
  congr 1
  cases t with
  | mk n =>
    simp only [Time.mk.injEq] at *
    have hA2 : (a : Int) = n / 1000000000 / 86400 + unixToAbsDays := by omega
    have y1c : ((daysBeforeYear (absYear a).1 : Nat) : Int) + ((absYear a).2 : Nat) = a := by
      exact_mod_cast y1
    push_cast
    simp only [unixToAbsDays] at *
    omega

/-! ## The file system -/

theorem FS.get_set_ne (fs : FS) (p q : List String) (n : Node) (h : q ≠ p) :
    (fs.set p n).get q = fs.get q := by
  cases q with
  | nil => rfl
  | cons a q => simp [FS.get, FS.set, h]

theorem FS.get_set_eq (fs : FS) (p : List String) (n : Node) (h : p ≠ []) :
    (fs.set p n).get p = some n := by
  cases p with
  | nil => exact absurd rfl h
  | cons a p => simp [FS.get, FS.set]

theorem FS.lookup_set (fs : FS) (n : Node) : ∀ (rest pre : List String) (x : Option Node),
    fs.lookup pre rest = .ok x →
    (fs.set (pre ++ rest) n).lookup pre rest = .ok ((fs.set (pre ++ rest) n).get (pre ++ rest)) := by
  intro rest
  induction rest with
  | nil =>
    intro pre x _
    simp [FS.lookup]
  | cons c rest ih =>
    intro pre x h
    have hne : pre ≠ pre ++ c :: rest := by
      intro e
      have := congrArg List.length e
      simp at this
    unfold FS.lookup at h ⊢
    rw [FS.get_set_ne fs _ _ n hne]
    cases hg : fs.get pre with
    | none => simp [hg] at h
    | some node =>
      cases node with
      | file m d => simp [hg] at h
      | dir m =>
        simp only [hg] at h ⊢
        have e : pre ++ c :: rest = (pre ++ [c]) ++ rest := by simp
        rw [e]
        exact ih (pre ++ [c]) x h

theorem FS.lookup_nil_root (fs : FS) : fs.lookup [] [] = .ok (some (.dir 0o755)) := rfl

theorem FS.ReadFile_WriteFile (fs fs1 : FS) (path : String) (data : FileData) (perm : Nat)
    (h : fs.WriteFile path data perm = (none, fs1)) : fs1.ReadFile path = .ok data := by
  unfold FS.WriteFile at h
  by_cases hp : path = ""
  · simp [hp] at h
  simp only [hp, if_false] at h
  have hroot : resolve path ≠ [] := by
    intro e
    rw [e, FS.lookup_nil_root] at h
    simp at h
  cases hl : fs.lookup [] (resolve path) with
  | error e => simp [hl] at h
  | ok x =>
    have hs := fun n => FS.lookup_set fs n (resolve path) [] x hl
    simp only [List.nil_append] at hs
    cases x with
    | none =>
      simp only [hl] at h
      by_cases hd : namesDir path = true
      · simp [hd] at h
      · simp only [hd] at h
        have h2 := (Prod.mk.inj h).2
        subst h2
        unfold FS.ReadFile
        simp [hp, hs, FS.get_set_eq _ _ _ hroot, hd]
    | some node =>
      cases node with
      | dir m => simp [hl] at h
      | file m d =>
        simp only [hl] at h
        by_cases hd : namesDir path = true
        · simp [hd] at h
        · simp only [hd] at h
          have h2 := (Prod.mk.inj h).2
          subst h2
          unfold FS.ReadFile
          simp [hp, hs, FS.get_set_eq _ _ _ hroot, hd]

/-! ## The JSON round trip -/

theorem findField_developer_token : findField "developer_token" = some .DeveloperToken := by
  decide

theorem findField_user_token : findField "user_token" = some .UserToken := by decide

theorem findField_expires_at : findField "expires_at" = some .ExpiresAt := by decide

theorem findField_created_at : findField "created_at" = some .CreatedAt := by decide

theorem unmarshal_marshal (r : TokenData) (doc : JVal) (h : marshalTokenData r = .ok doc) :
    unmarshalTokenData (.json doc) = .ok r := by
  unfold marshalTokenData Time.MarshalJSON at h
  cases he : formatRFC3339 r.ExpiresAt with
  | none => simp [he] at h
  | some se =>
    cases hc : formatRFC3339 r.CreatedAt with
    | none => simp [he, hc] at h
    | some sc =>
      simp only [he, hc] at h
      have hd := Except.ok.inj h
      subst hd
      have pe := parseRFC3339_formatRFC3339 _ _ he
      have pc := parseRFC3339_formatRFC3339 _ _ hc
      cases r with
      | mk dev usr ex cr =>
        by_cases hu : usr = ""
        · subst hu
          simp [unmarshalTokenData, decodeMembers, findField_developer_token,
            findField_expires_at, findField_created_at, decodeString, Time.UnmarshalJSON, pe, pc,
            TokenData.zero]
        · simp [unmarshalTokenData, decodeMembers, findField_developer_token,
            findField_user_token, findField_expires_at, findField_created_at, decodeString,
            Time.UnmarshalJSON, pe, pc, TokenData.zero, hu]

theorem SaveTokens_ok (ts : TokenStorage) (data : TokenData) (fs fs2 : FS)
    (h : ts.SaveTokens data fs = (none, fs2)) :
    ∃ fs1 doc, fs.MkdirAll (filepathDir ts.databasePath) 0o755 = (none, fs1) ∧
      marshalTokenData data = .ok doc ∧
      fs1.WriteFile ts.databasePath (.json doc) 0o600 = (none, fs2) := by
  unfold TokenStorage.SaveTokens at h
  simp only at h
  rcases hm : fs.MkdirAll (filepathDir ts.databasePath) 0o755 with ⟨e1, fs1⟩
  rw [hm] at h
  cases e1 with
  | some e => simp at h
  | none =>
    simp only at h
    cases hj : marshalTokenData data with
    | error e => simp [hj] at h
    | ok doc =>
      simp only [hj] at h
      rcases hw : fs1.WriteFile ts.databasePath (.json doc) 0o600 with ⟨e2, fs3⟩
      rw [hw] at h
      cases e2 with
      | some e => simp at h
      | none =>
        simp only at h
        have h2 := (Prod.mk.inj h).2
        subst h2
        exact ⟨fs1, doc, rfl, rfl, hw⟩

theorem LoadTokens_SaveTokens (ts : TokenStorage) (data : TokenData) (fs fs2 : FS)
    (h : ts.SaveTokens data fs = (none, fs2)) : ts.LoadTokens fs2 = (some data, none) := by
  obtain ⟨fs1, doc, _, hj, hw⟩ := SaveTokens_ok ts data fs fs2 h
  unfold TokenStorage.LoadTokens
  rw [FS.ReadFile_WriteFile _ _ _ _ _ hw]
  simp [unmarshal_marshal _ _ hj]

theorem FS.lookup_eq_get (fs : FS) : ∀ (rest pre : List String) (x : Option Node),
    fs.lookup pre rest = .ok x → x = fs.get (pre ++ rest) := by
  intro rest
  induction rest with
  | nil =>
    intro pre x h
    simp only [FS.lookup] at h
    simpa using (Except.ok.inj h).symm
  | cons c rest ih =>
    intro pre x h
    unfold FS.lookup at h
    cases hg : fs.get pre with
    | none => simp [hg] at h
    | some node =>
      cases node with
      | file m d => simp [hg] at h
      | dir m =>
        simp only [hg] at h
        have e : pre ++ c :: rest = (pre ++ [c]) ++ rest := by simp
        rw [e]
        exact ih (pre ++ [c]) x h

theorem FS.mkdirAllFrom_spec (perm : Nat) : ∀ (rest : List String) (fs : FS) (pre : List String)
    (e : Option Errno) (fs1 : FS), FS.mkdirAllFrom perm fs pre rest = (e, fs1) →
    fs1.umask = fs.umask ∧
      ∀ q, fs1.get q = fs.get q ∨
        (fs.get q = none ∧ fs1.get q = some (.dir (fs.applyUmask perm))) := by
  intro rest
  induction rest with
  | nil =>
    intro fs pre e fs1 h
    simp only [FS.mkdirAllFrom] at h
    have h2 := (Prod.mk.inj h).2
    subst h2
    exact ⟨rfl, fun q => Or.inl rfl⟩
  | cons c rest ih =>
    intro fs pre e fs1 h
    unfold FS.mkdirAllFrom at h
    cases hg : fs.get (pre ++ [c]) with
    | some node =>
      cases node with
      | dir m =>
        simp only [hg] at h
        exact ih fs (pre ++ [c]) e fs1 h
      | file m d =>
        simp only [hg] at h
        have h2 := (Prod.mk.inj h).2
        subst h2
        exact ⟨rfl, fun q => Or.inl rfl⟩
    | none =>
      simp only [hg] at h
      obtain ⟨hu, hq⟩ := ih _ (pre ++ [c]) e fs1 h
      have hne : pre ++ [c] ≠ [] := by simp
      refine ⟨hu, fun q => ?_⟩
      have hau : (fs.set (pre ++ [c]) (.dir (fs.applyUmask perm))).applyUmask perm
          = fs.applyUmask perm := rfl
      by_cases hqp : q = pre ++ [c]
      · subst hqp
        right
        refine ⟨hg, ?_⟩
        rcases hq (pre ++ [c]) with h1 | ⟨h1, _⟩
        · rw [h1, FS.get_set_eq _ _ _ hne]
        · rw [FS.get_set_eq _ _ _ hne] at h1
          exact absurd h1 (by simp)
      · rcases hq q with h1 | ⟨h1, h2⟩
        · left
          rw [h1, FS.get_set_ne _ _ _ _ hqp]
        · right
          rw [FS.get_set_ne _ _ _ _ hqp] at h1
          exact ⟨h1, by rw [h2, hau]⟩

theorem FS.WriteFile_spec (fs fs1 : FS) (path : String) (data : FileData) (perm : Nat)
    (h : fs.WriteFile path data perm = (none, fs1)) :
    (∀ q, q ≠ resolve path → fs1.get q = fs.get q) ∧
      ∃ m, fs1.get (resolve path) = some (.file m data) ∧
        ((fs.get (resolve path) = none ∧ m = fs.applyUmask perm) ∨
          ∃ d, fs.get (resolve path) = some (.file m d)) := by
  unfold FS.WriteFile at h
  by_cases hp : path = ""
  · simp [hp] at h
  simp only [hp, if_false] at h
  have hroot : resolve path ≠ [] := by
    intro e
    rw [e, FS.lookup_nil_root] at h
    simp at h
  cases hl : fs.lookup [] (resolve path) with
  | error e => simp [hl] at h
  | ok x =>
    have hx := FS.lookup_eq_get fs (resolve path) [] x hl
    simp only [List.nil_append] at hx
    cases x with
    | none =>
      simp only [hl] at h
      by_cases hd : namesDir path = true
      · simp [hd] at h
      · simp only [hd] at h
        have h2 := (Prod.mk.inj h).2
        subst h2
        exact ⟨fun q hq => FS.get_set_ne _ _ _ _ hq,
          _, FS.get_set_eq _ _ _ hroot, Or.inl ⟨hx.symm, rfl⟩⟩
    | some node =>
      cases node with
      | dir m => simp [hl] at h
      | file m d =>
        simp only [hl] at h
        by_cases hd : namesDir path = true
        · simp [hd] at h
        · simp only [hd] at h
          have h2 := (Prod.mk.inj h).2
          subst h2
          exact ⟨fun q hq => FS.get_set_ne _ _ _ _ hq,
            _, FS.get_set_eq _ _ _ hroot, Or.inr ⟨d, hx.symm⟩⟩

theorem applyUmask_owner_only (fs : FS) : fs.applyUmask 0o600 &&& 0o077 = 0 := by
  unfold FS.applyUmask
  rw [Nat.and_comm 0o600 _, Nat.and_assoc]
  have e : (0o600 &&& 0o077 : Nat) = 0 := by decide
  rw [e]
  exact Nat.and_zero _

theorem LoadTokens_cases (ts : TokenStorage) (fs : FS) :
    (∃ r d, fs.ReadFile ts.databasePath = .ok d ∧ unmarshalTokenData d = .ok r ∧
        ts.LoadTokens fs = (some r, none)) ∨
      (∃ e, ts.LoadTokens fs = (none, some e)) := by
  unfold TokenStorage.LoadTokens
  cases hr : fs.ReadFile ts.databasePath with
  | error err =>
    right
    cases err <;> simp [Errno.IsNotExist]
  | ok d =>
    cases hu : unmarshalTokenData d with
    | error err =>
      right
      simp only [hu]
      exact ⟨_, rfl⟩
    | ok r =>
      left
      exact ⟨r, d, rfl, hu, by simp only [hu]⟩

theorem decodeMembers_DeveloperToken : ∀ (ms : List (String × JVal)) (d r : TokenData)
    (saved : Option JsonError), decodeMembers ms d saved = .ok r →
    (∀ kv ∈ ms, findField kv.1 ≠ some .DeveloperToken) → r.DeveloperToken = d.DeveloperToken := by
  intro ms
  induction ms with
  | nil =>
    intro d r saved h _
    cases saved with
    | none =>
      simp only [decodeMembers] at h
      rw [← Except.ok.inj h]
    | some e => simp [decodeMembers] at h
  | cons kv ms ih =>
    intro d r saved h hk
    obtain ⟨key, v⟩ := kv
    have hk0 := hk (key, v) (List.mem_cons_self _ _)
    have hk1 : ∀ kv ∈ ms, findField kv.1 ≠ some .DeveloperToken :=
      fun kv hkv => hk kv (List.mem_cons_of_mem _ hkv)
    unfold decodeMembers at h
    cases hf : findField key with
    | none =>
      simp only [hf] at h
      exact (ih _ _ _ h hk1).trans rfl
    | some f =>
      cases f with
      | DeveloperToken => exact absurd hf hk0
      | UserToken =>
        simp only [hf] at h
        cases hs : decodeString v d.UserToken with
        | none =>
          simp only [hs] at h
          exact (ih _ _ _ h hk1).trans rfl
        | some s =>
          simp only [hs] at h
          exact (ih _ _ _ h hk1).trans rfl
      | ExpiresAt =>
        simp only [hf] at h
        cases hs : Time.UnmarshalJSON v d.ExpiresAt with
        | error e => simp [hs] at h
        | ok t =>
          simp only [hs] at h
          exact (ih _ _ _ h hk1).trans rfl
      | CreatedAt =>
        simp only [hf] at h
        cases hs : Time.UnmarshalJSON v d.CreatedAt with
        | error e => simp [hs] at h
        | ok t =>
          simp only [hs] at h
          exact (ih _ _ _ h hk1).trans rfl

theorem decodeMembers_ExpiresAt : ∀ (ms : List (String × JVal)) (d r : TokenData)
    (saved : Option JsonError), decodeMembers ms d saved = .ok r →
    (∀ kv ∈ ms, findField kv.1 ≠ some .ExpiresAt) → r.ExpiresAt = d.ExpiresAt := by
  intro ms
  induction ms with
  | nil =>
    intro d r saved h _
    cases saved with
    | none =>
      simp only [decodeMembers] at h
      rw [← Except.ok.inj h]
    | some e => simp [decodeMembers] at h
  | cons kv ms ih =>
    intro d r saved h hk
    obtain ⟨key, v⟩ := kv
    have hk0 := hk (key, v) (List.mem_cons_self _ _)
    have hk1 : ∀ kv ∈ ms, findField kv.1 ≠ some .ExpiresAt :=
      fun kv hkv => hk kv (List.mem_cons_of_mem _ hkv)
    unfold decodeMembers at h
    cases hf : findField key with
    | none =>
      simp only [hf] at h
      exact (ih _ _ _ h hk1).trans rfl
    | some f =>
      cases f with
      | ExpiresAt => exact absurd hf hk0
      | UserToken =>
        simp only [hf] at h
        cases hs : decodeString v d.UserToken with
        | none =>
          simp only [hs] at h
          exact (ih _ _ _ h hk1).trans rfl
        | some s =>
          simp only [hs] at h
          exact (ih _ _ _ h hk1).trans rfl
      | DeveloperToken =>
        simp only [hf] at h
        cases hs : decodeString v d.DeveloperToken with
        | none =>
          simp only [hs] at h
          exact (ih _ _ _ h hk1).trans rfl
        | some s =>
          simp only [hs] at h
          exact (ih _ _ _ h hk1).trans rfl
      | CreatedAt =>
        simp only [hf] at h
        cases hs : Time.UnmarshalJSON v d.CreatedAt with
        | error e => simp [hs] at h
        | ok t =>
          simp only [hs] at h
          exact (ih _ _ _ h hk1).trans rfl

theorem decodeMembers_CreatedAt : ∀ (ms : List (String × JVal)) (d r : TokenData)
    (saved : Option JsonError), decodeMembers ms d saved = .ok r →
    (∀ kv ∈ ms, findField kv.1 ≠ some .CreatedAt) → r.CreatedAt = d.CreatedAt := by
  intro ms
  induction ms with
  | nil =>
    intro d r saved h _
    cases saved with
    | none =>
      simp only [decodeMembers] at h
      rw [← Except.ok.inj h]
    | some e => simp [decodeMembers] at h
  | cons kv ms ih =>
    intro d r saved h hk
    obtain ⟨key, v⟩ := kv
    have hk0 := hk (key, v) (List.mem_cons_self _ _)
    have hk1 : ∀ kv ∈ ms, findField kv.1 ≠ some .CreatedAt :=
      fun kv hkv => hk kv (List.mem_cons_of_mem _ hkv)
    unfold decodeMembers at h
    cases hf : findField key with
    | none =>
      simp only [hf] at h
      exact (ih _ _ _ h hk1).trans rfl
    | some f =>
      cases f with
      | CreatedAt => exact absurd hf hk0
      | UserToken =>
        simp only [hf] at h
        cases hs : decodeString v d.UserToken with
        | none =>
          simp only [hs] at h
          exact (ih _ _ _ h hk1).trans rfl
        | some s =>
          simp only [hs] at h
          exact (ih _ _ _ h hk1).trans rfl
      | DeveloperToken =>
        simp only [hf] at h
        cases hs : decodeString v d.DeveloperToken with
        | none =>
          simp only [hs] at h
          exact (ih _ _ _ h hk1).trans rfl
        | some s =>
          simp only [hs] at h
          exact (ih _ _ _ h hk1).trans rfl
      | ExpiresAt =>
        simp only [hf] at h
        cases hs : Time.UnmarshalJSON v d.ExpiresAt with
        | error e => simp [hs] at h
        | ok t =>
          simp only [hs] at h
          exact (ih _ _ _ h hk1).trans rfl

/-! ## `AuthManager` -/

theorem generateDeveloperToken_cases (lib : Crypto) (am : AuthManager) (w : World) :
    (∃ e, w.fs.ReadFile am.config.AppleMusic.PrivateKeyPath = .error e ∧
        am.generateDeveloperToken lib w = (("", some (.readPrivateKey e)), w)) ∨
      (∃ d, w.fs.ReadFile am.config.AppleMusic.PrivateKeyPath = .ok d ∧ lib.Decode d = none ∧
        am.generateDeveloperToken lib w = (("", some .decodePEM), w)) ∨
      (∃ d b e, w.fs.ReadFile am.config.AppleMusic.PrivateKeyPath = .ok d ∧
        lib.Decode d = some b ∧ lib.ParsePKCS8PrivateKey b = .error e ∧
        am.generateDeveloperToken lib w = (("", some (.parsePrivateKey e)), w)) ∨
      (∃ d b k, w.fs.ReadFile am.config.AppleMusic.PrivateKeyPath = .ok d ∧
        lib.Decode d = some b ∧ lib.ParsePKCS8PrivateKey b = .ok k ∧ (∀ ek, k ≠ .ecdsa ek) ∧
        am.generateDeveloperToken lib w = (("", some .notECDSA), w)) ∨
      (∃ d b ek e, w.fs.ReadFile am.config.AppleMusic.PrivateKeyPath = .ok d ∧
        lib.Decode d = some b ∧ lib.ParsePKCS8PrivateKey b = .ok (.ecdsa ek) ∧
        lib.SignedString (am.newToken (w.clock w.tick)) ek = .error e ∧
        am.generateDeveloperToken lib w = (("", some (.signToken e)),
          { w with tick := w.tick + 1,
                   log := .signed (am.newToken (w.clock w.tick)) :: w.log })) ∨
      (∃ d b ek s, w.fs.ReadFile am.config.AppleMusic.PrivateKeyPath = .ok d ∧
        lib.Decode d = some b ∧ lib.ParsePKCS8PrivateKey b = .ok (.ecdsa ek) ∧
        lib.SignedString (am.newToken (w.clock w.tick)) ek = .ok s ∧
        am.generateDeveloperToken lib w = ((s, none),
          { w with tick := w.tick + 1,
                   log := .signed (am.newToken (w.clock w.tick)) :: w.log })) := by
  unfold AuthManager.generateDeveloperToken
  cases hr : w.fs.ReadFile am.config.AppleMusic.PrivateKeyPath with
  | error e => exact Or.inl ⟨e, rfl, rfl⟩
  | ok d =>
    right
    cases hd : lib.Decode d with
    | none => exact Or.inl ⟨d, rfl, hd, by simp only [hd]⟩
    | some b =>
      right
      cases hp : lib.ParsePKCS8PrivateKey b with
      | error e => exact Or.inl ⟨d, b, e, rfl, hd, hp, by simp only [hd, hp]⟩
      | ok k =>
        right
        cases k with
        | rsa key =>
          exact Or.inl ⟨d, b, _, rfl, hd, hp, by simp, by simp only [hd, hp]⟩
        | ed25519 key =>
          exact Or.inl ⟨d, b, _, rfl, hd, hp, by simp, by simp only [hd, hp]⟩
        | ecdh key =>
          exact Or.inl ⟨d, b, _, rfl, hd, hp, by simp, by simp only [hd, hp]⟩
        | ecdsa ek =>
          right
          cases hs : lib.SignedString (am.newToken (w.clock w.tick)) ek with
          | error e =>
            exact Or.inl ⟨d, b, ek, e, rfl, hd, hp, hs, by simp only [hd, hp, World.Now, hs]⟩
          | ok s =>
            exact Or.inr ⟨d, b, ek, s, rfl, hd, hp, hs, by simp only [hd, hp, World.Now, hs]⟩

theorem GetClient_cases (am : AuthManager) (w : World) :
    (∃ e, am.storage.LoadTokens w.fs = (none, some e) ∧
        am.GetClient w = ((none, some e), w)) ∨
      (∃ r, am.storage.LoadTokens w.fs = (some r, none) ∧
        r.ExpiresAt.nanos < (w.clock w.tick).nanos ∧
        am.GetClient w = ((none, some .tokenExpired), { w with tick := w.tick + 1 })) ∨
      (∃ r, am.storage.LoadTokens w.fs = (some r, none) ∧
        (w.clock w.tick).nanos ≤ r.ExpiresAt.nanos ∧
        am.GetClient w = ((some ⟨⟨r.DeveloperToken, r.UserToken⟩⟩, none),
          { w with tick := w.tick + 1 })) := by
  unfold AuthManager.GetClient
  rcases LoadTokens_cases am.storage w.fs with ⟨r, d, _, _, h⟩ | ⟨e, h⟩
  · right
    by_cases ha : r.ExpiresAt.nanos < (w.clock w.tick).nanos
    · left
      refine ⟨r, h, ha, ?_⟩
      simp [h, World.Now, Time.After, ha]
    · right
      refine ⟨r, h, not_lt.mp ha, ?_⟩
      by_cases hu : r.UserToken = ""
      · simp [h, World.Now, Time.After, ha, hu]
      · simp [h, World.Now, Time.After, ha, hu]
  · left
    refine ⟨e, h, ?_⟩
    simp only [h]

theorem Unix_Add_validity (now : Time) :
    (now.Add validity).Unix = now.Unix + 15552000 := by
  simp only [Time.Add, Time.Unix, validity, hour]
  omega

theorem LoadFromPath_cases (yamlUnmarshal : FileData → Except String Config)
    (homeDir : String) (fs : FS) (path : String) (c : Config)
    (h : LoadFromPath yamlUnmarshal homeDir fs path = (some c, none)) :
    c = DefaultConfig homeDir ∨ c.Storage.DatabasePath ≠ "" ∨
      c.Storage.DatabasePath = (DefaultConfig homeDir).Storage.DatabasePath := by
  unfold LoadFromPath at h
  cases hr : fs.ReadFile path with
  | error e =>
    simp only [hr] at h
    by_cases he : e.IsNotExist = true
    · simp only [he, if_true] at h
      left
      simpa using h.symm
    · simp [he] at h
  | ok d =>
    simp only [hr] at h
    cases hy : yamlUnmarshal d with
    | error e => simp [hy] at h
    | ok cfg =>
      simp only [hy] at h
      by_cases hd : cfg.Storage.DatabasePath = ""
      · simp only [hd, if_true] at h
        right
        right
        have e1 := (Prod.mk.inj h).1
        have e2 := Option.some.inj e1
        rw [← e2]
      · simp only [hd, if_false] at h
        right
        left
        have e1 := (Prod.mk.inj h).1
        have e2 := Option.some.inj e1
        rw [← e2]
        exact hd

theorem String.append_ne_empty_left (a b : String) (h : a ≠ "") : a ++ b ≠ "" := by
  intro e
  apply h
  have hl := congrArg String.length e
  simp only [String.length_append] at hl
  have h0 : a.length = 0 := by
    have : ("" : String).length = 0 := rfl
    omega
  cases a with
  | mk l =>
    have hl0 : l = [] := List.length_eq_zero.mp h0
    subst hl0
    rfl

theorem DefaultConfig_DatabasePath (homeDir : String) :
    (DefaultConfig homeDir).Storage.DatabasePath ≠ "" := by
  have t : filepathJoin [".local", "share", "apple-music-mcp", "data.db"]
      = ".local/share/apple-music-mcp/data.db" := by decide
  simp only [DefaultConfig]
  rw [filepathJoin, t]
  by_cases hh : homeDir = ""
  · simp only [hh, if_true]
    decide
  · simp only [hh, if_false]
    have t2 : ¬ (".local/share/apple-music-mcp/data.db" : String) = "" := by decide
    simp only [t2, if_false]
    rw [String.append_assoc]
    exact String.append_ne_empty_left _ _ hh

/-! ## C2: save then load -/

/-- C2: for every prior state of the file system and every record, if
`SaveTokens` succeeds then the next `LoadTokens` succeeds and returns exactly
the record saved (same tokens, same instants); the result does not depend on
what the storage location held before. -/
theorem save_then_load (ts : TokenStorage) (r : TokenData) (fs fs2 : FS)
    (h : ts.SaveTokens r fs = (none, fs2)) : ts.LoadTokens fs2 = (some r, none) :=
  LoadTokens_SaveTokens ts r fs fs2 h

/-- C2, evaluated: the location already holds an older record with a user
token; after saving `sampleRecord`, which has none, it is `sampleRecord` that is
loaded. -/
theorem save_then_load_witness :
    sampleStorage.LoadTokens (fsWithTokens 0o600 (.json olderDoc))
        = (some ⟨"token-old", "user-old", ⟨1717200000000000000⟩, ⟨1701648000000000000⟩⟩, none) ∧
      (sampleStorage.SaveTokens sampleRecord (fsWithTokens 0o600 (.json olderDoc))).1 = none ∧
      sampleStorage.LoadTokens
          (sampleStorage.SaveTokens sampleRecord (fsWithTokens 0o600 (.json olderDoc))).2
        = (some sampleRecord, none) :=
  ⟨by decide, by decide,
    save_then_load sampleStorage sampleRecord (fsWithTokens 0o600 (.json olderDoc)) _
      (Prod.ext (by decide) rfl)⟩

/-! ## C5: what a loaded record guarantees -/

/-- C5 fails: a credential file that holds the empty JSON object is loaded
without error, and the record returned has an empty `DeveloperToken`, zero
`ExpiresAt` and `CreatedAt`, and `ExpiresAt` not after `CreatedAt`. -/
theorem load_empty_object_returns_zero_record :
    sampleStorage.LoadTokens (fsWithTokens 0o600 (.json (.obj [])))
        = (some TokenData.zero, none) ∧
      TokenData.zero.DeveloperToken = "" ∧
      TokenData.zero.ExpiresAt = Time.zero ∧ TokenData.zero.CreatedAt = Time.zero ∧
      ¬ TokenData.zero.CreatedAt.nanos < TokenData.zero.ExpiresAt.nanos := by
  decide

/-- C5, amended: `LoadTokens` returns either a record and no error or an error
and no record; it returns a record exactly when the file is read and its
content decodes, and the record is then the decoded one, in which every field
the file has no member for keeps its zero value (the empty string, the zero
time).  No field is required and the two instants are not compared. -/
theorem load_returns_decoded_record (ts : TokenStorage) (fs : FS) :
    ((∃ r, ts.LoadTokens fs = (some r, none)) ∨ (∃ e, ts.LoadTokens fs = (none, some e))) ∧
      (∀ r, ts.LoadTokens fs = (some r, none) ↔
        ∃ d, fs.ReadFile ts.databasePath = .ok d ∧ unmarshalTokenData d = .ok r) ∧
      (∀ ms r, fs.ReadFile ts.databasePath = .ok (.json (.obj ms)) →
        ts.LoadTokens fs = (some r, none) →
        ((∀ kv ∈ ms, findField kv.1 ≠ some .DeveloperToken) → r.DeveloperToken = "") ∧
        ((∀ kv ∈ ms, findField kv.1 ≠ some .ExpiresAt) → r.ExpiresAt = Time.zero) ∧
        ((∀ kv ∈ ms, findField kv.1 ≠ some .CreatedAt) → r.CreatedAt = Time.zero)) := by
  have hiff : ∀ r, ts.LoadTokens fs = (some r, none) ↔
      ∃ d, fs.ReadFile ts.databasePath = .ok d ∧ unmarshalTokenData d = .ok r := by
    intro r
    constructor
    · intro h
      rcases LoadTokens_cases ts fs with ⟨r1, d, h1, h2, h3⟩ | ⟨e, h3⟩
      · rw [h3] at h
        have e1 : r1 = r := by simpa using h
        subst e1
        exact ⟨d, h1, h2⟩
      · rw [h3] at h
        simp at h
    · rintro ⟨d, h1, h2⟩
      unfold TokenStorage.LoadTokens
      simp only [h1, h2]
  refine ⟨?_, hiff, ?_⟩
  · rcases LoadTokens_cases ts fs with ⟨r1, d, _, _, h3⟩ | ⟨e, h3⟩
    · exact Or.inl ⟨r1, h3⟩
    · exact Or.inr ⟨e, h3⟩
  · intro ms r hr hl
    obtain ⟨d, h1, h2⟩ := (hiff r).1 hl
    rw [hr] at h1
    have hd := Except.ok.inj h1
    subst hd
    simp only [unmarshalTokenData] at h2
    exact ⟨fun hk => decodeMembers_DeveloperToken ms _ r none h2 hk,
      fun hk => decodeMembers_ExpiresAt ms _ r none h2 hk,
      fun hk => decodeMembers_CreatedAt ms _ r none h2 hk⟩

/-- C5 amended, evaluated: a file that holds only a developer token is loaded,
with the zero time as `ExpiresAt`. -/
theorem load_returns_decoded_record_witness :
    sampleStorage.LoadTokens
        (fsWithTokens 0o600 (.json (.obj [("developer_token", .str "token-a")])))
        = (some ⟨"token-a", "", Time.zero, Time.zero⟩, none) ∧
      (⟨"token-a", "", Time.zero, Time.zero⟩ : TokenData).ExpiresAt = Time.zero :=
  ⟨by decide,
    ((load_returns_decoded_record sampleStorage
        (fsWithTokens 0o600 (.json (.obj [("developer_token", .str "token-a")])))).2.2
      [("developer_token", .str "token-a")] ⟨"token-a", "", Time.zero, Time.zero⟩ rfl
      (by decide)).2.1 (by decide)⟩

/-! ## C6: the failures of `LoadTokens` -/

/-- C6 fails: the storage location `/data/tokens.json/x` lies below a regular
file, so no file exists there; the read fails with ENOTDIR, which
`os.IsNotExist` does not recognise, and `LoadTokens` returns the read error
and not the no-credential error. -/
theorem load_below_regular_file_is_read_error :
    ((fsWithTokens 0o600 (.json sampleDoc)).get (resolve "/data/tokens.json/x")).isNone = true ∧
      (NewTokenStorage "/data/tokens.json/x").LoadTokens (fsWithTokens 0o600 (.json sampleDoc))
        = (none, some (.readTokenFile .ENOTDIR)) ∧
      (NewTokenStorage "/data/tokens.json/x").LoadTokens (fsWithTokens 0o600 (.json sampleDoc))
        ≠ (none, some .noTokens) := by
  decide

/-- C6, amended: `LoadTokens` fails with the no-credential error exactly when
the read reports that the file does not exist (the file, or a directory on the
way to it, is missing); with the read error exactly for any other read failure
(as when a component of the path is a regular file, though no file exists at
the location then either); and with the parse error exactly when the file is
read and its content does not decode (as bytes that are no JSON text do not).
The three errors and their messages differ, and whenever it fails it returns no
record. -/
theorem load_failures_classified (ts : TokenStorage) (fs : FS) :
    (ts.LoadTokens fs = (none, some .noTokens) ↔
        fs.ReadFile ts.databasePath = .error .ENOENT) ∧
      (∀ e, ts.LoadTokens fs = (none, some (.readTokenFile e)) ↔
        (fs.ReadFile ts.databasePath = .error e ∧ e ≠ .ENOENT)) ∧
      (∀ c, ts.LoadTokens fs = (none, some (.parseTokenFile c)) ↔
        ∃ d, fs.ReadFile ts.databasePath = .ok d ∧ unmarshalTokenData d = .error c) ∧
      (fs.ReadFile ts.databasePath = .error .ENOENT →
        ts.LoadTokens fs = (none, some .noTokens)) ∧
      (ts.databasePath ≠ "" → fs.lookup [] (resolve ts.databasePath) = .ok none →
        ts.LoadTokens fs = (none, some .noTokens)) ∧
      (ts.databasePath ≠ "" → fs.lookup [] (resolve ts.databasePath) = .error .ENOENT →
        ts.LoadTokens fs = (none, some .noTokens)) ∧
      (ts.databasePath ≠ "" → fs.lookup [] (resolve ts.databasePath) = .error .ENOTDIR →
        ts.LoadTokens fs = (none, some (.readTokenFile .ENOTDIR))) ∧
      (∀ e, e ≠ .ENOENT → fs.ReadFile ts.databasePath = .error e →
        ts.LoadTokens fs = (none, some (.readTokenFile e))) ∧
      (∀ d e, fs.ReadFile ts.databasePath = .ok d → unmarshalTokenData d = .error e →
        ts.LoadTokens fs = (none, some (.parseTokenFile e))) ∧
      (∀ bytes, fs.ReadFile ts.databasePath = .ok (.raw bytes) →
        ts.LoadTokens fs = (none, some (.parseTokenFile .invalidText))) ∧
      (∀ e c, AuthError.noTokens ≠ .readTokenFile e ∧ AuthError.noTokens ≠ .parseTokenFile c ∧
        AuthError.readTokenFile e ≠ .parseTokenFile c ∧
        AuthError.noTokens.message = "no tokens found, please authenticate first" ∧
        AuthError.noTokens.message ≠ (AuthError.readTokenFile e).message ∧
        AuthError.noTokens.message ≠ (AuthError.parseTokenFile c).message ∧
        (AuthError.readTokenFile e).message ≠ (AuthError.parseTokenFile c).message) ∧
      ((ts.LoadTokens fs).2 ≠ none → (ts.LoadTokens fs).1 = none) := by
  refine ⟨?_, ?_, ?_, ?_, ?_, ?_, ?_, ?_, ?_, ?_, ?_, ?_⟩
  · unfold TokenStorage.LoadTokens
    cases hr : fs.ReadFile ts.databasePath with
    | error e => cases e <;> simp [Errno.IsNotExist]
    | ok d => cases hu : unmarshalTokenData d <;> simp [hu]
  · intro e
    unfold TokenStorage.LoadTokens
    cases hr : fs.ReadFile ts.databasePath with
    | error e1 => cases e1 <;> cases e <;> simp [Errno.IsNotExist]
    | ok d => cases hu : unmarshalTokenData d <;> simp [hu]
  · intro c
    unfold TokenStorage.LoadTokens
    cases hr : fs.ReadFile ts.databasePath with
    | error e1 => cases e1 <;> simp [Errno.IsNotExist]
    | ok d =>
      cases hu : unmarshalTokenData d with
      | error e2 =>
        simp only [hu, Prod.mk.injEq, true_and, Option.some.injEq,
          AuthError.parseTokenFile.injEq]
        constructor
        · intro h
          exact ⟨d, rfl, by rw [hu, h]⟩
        · rintro ⟨d1, h1, h2⟩
          rw [← Except.ok.inj h1, hu] at h2
          exact Except.error.inj h2
      | ok r =>
        simp only [hu, Prod.mk.injEq]
        constructor
        · intro h
          simp at h
        · rintro ⟨d1, h1, h2⟩
          rw [← Except.ok.inj h1, hu] at h2
          simp at h2
  · intro h
    simp [TokenStorage.LoadTokens, h, Errno.IsNotExist]
  · intro hp h
    simp [TokenStorage.LoadTokens, FS.ReadFile, hp, h, Errno.IsNotExist]
  · intro hp h
    simp [TokenStorage.LoadTokens, FS.ReadFile, hp, h, Errno.IsNotExist]
  · intro hp h
    simp [TokenStorage.LoadTokens, FS.ReadFile, hp, h, Errno.IsNotExist]
  · intro e he h
    cases e <;> simp [TokenStorage.LoadTokens, h, Errno.IsNotExist] at he ⊢
  · intro d e h1 h2
    simp [TokenStorage.LoadTokens, h1, h2]
  · intro bytes h
    simp [TokenStorage.LoadTokens, h, unmarshalTokenData]
  · intro e c
    cases e <;> cases c <;> decide
  · intro h
    rcases LoadTokens_cases ts fs with ⟨r1, d, _, _, h3⟩ | ⟨e, h3⟩
    · rw [h3] at h
      exact absurd rfl h
    · rw [h3]

/-- C6 amended, evaluated: nothing at the storage location, a storage location
below a regular file, a directory at the storage location, and a file of bytes
that are no JSON text. -/
theorem load_failures_classified_witness :
    sampleStorage.LoadTokens emptyFS = (none, some .noTokens) ∧
      (NewTokenStorage "/data/tokens.json/x").LoadTokens (fsWithTokens 0o600 (.json sampleDoc))
        = (none, some (.readTokenFile .ENOTDIR)) ∧
      (NewTokenStorage "/data").LoadTokens (fsWithTokens 0o600 (.raw "not json"))
        = (none, some (.readTokenFile .EISDIR)) ∧
      sampleStorage.LoadTokens (fsWithTokens 0o600 (.raw "not json"))
        = (none, some (.parseTokenFile .invalidText)) :=
  ⟨(load_failures_classified sampleStorage emptyFS).1.2 rfl,
    (load_failures_classified (NewTokenStorage "/data/tokens.json/x")
      (fsWithTokens 0o600 (.json sampleDoc))).2.2.2.2.2.2.1 (by decide) rfl,
    ((load_failures_classified (NewTokenStorage "/data")
      (fsWithTokens 0o600 (.raw "not json"))).2.1 .EISDIR).2 ⟨rfl, by decide⟩,
    (load_failures_classified sampleStorage
      (fsWithTokens 0o600 (.raw "not json"))).2.2.2.2.2.2.2.2.2.1 "not json" rfl⟩

/-! ## C7: permission bits after `SaveTokens` -/

/-- C7 fails: with the usual umask 022 and no `/data` directory, a successful
`SaveTokens` creates `/data` with mode 0755, which carries group and other
bits (055); and a credential file that was there with mode 0644 still has
mode 0644 after a successful `SaveTokens`. -/
theorem save_creates_directory_0755 :
    (sampleStorage.SaveTokens sampleRecord emptyFS).1 = none ∧
      (emptyFS.get ["data"]).isNone = true ∧
      ((sampleStorage.SaveTokens sampleRecord emptyFS).2.get ["data"]).map
          (fun n => (n.isDir, n.mode, n.mode &&& 0o077)) = some (true, 0o755, 0o055) ∧
      (sampleStorage.SaveTokens sampleRecord (fsWithTokens 0o644 (.json olderDoc))).1 = none ∧
      ((sampleStorage.SaveTokens sampleRecord (fsWithTokens 0o644 (.json olderDoc))).2.get
          ["data", "tokens.json"]).map
          (fun n => (n.isDir, n.mode, n.mode &&& 0o077)) = some (false, 0o644, 0o044) := by
  decide

/-- C7, amended: after a successful `SaveTokens` the credential file is a file
at the storage location, and when the call created it its mode is 0600 less
the umask, which has no group or other bit; every directory the call created
has mode 0755 less the umask. -/
theorem save_permissions (ts : TokenStorage) (r : TokenData) (fs fs2 : FS)
    (h : ts.SaveTokens r fs = (none, fs2)) :
    (∃ m d, fs2.get (resolve ts.databasePath) = some (.file m d) ∧
        (fs.get (resolve ts.databasePath) = none →
          m = fs.applyUmask 0o600 ∧ m &&& 0o077 = 0)) ∧
      (∀ q m, fs.get q = none → fs2.get q = some (.dir m) → m = fs.applyUmask 0o755) := by
  obtain ⟨fs1, doc, hm, _, hw⟩ := SaveTokens_ok ts r fs fs2 h
  obtain ⟨hu, hq⟩ := FS.mkdirAllFrom_spec 0o755 _ fs [] none fs1 hm
  obtain ⟨hother, m, hfile, hmode⟩ := FS.WriteFile_spec fs1 fs2 _ _ _ hw
  have hau : ∀ p, fs1.applyUmask p = fs.applyUmask p := by
    intro p
    simp [FS.applyUmask, hu]
  refine ⟨⟨m, _, hfile, ?_⟩, ?_⟩
  · intro hnone
    rcases hmode with ⟨_, h2⟩ | ⟨d, h1⟩
    · rw [h2, hau]
      exact ⟨rfl, applyUmask_owner_only fs⟩
    · rcases hq (resolve ts.databasePath) with h3 | ⟨_, h3⟩
      · rw [h3, hnone] at h1
        simp at h1
      · rw [h3] at h1
        simp at h1
  · intro q m1 hnone hdir
    by_cases hqp : q = resolve ts.databasePath
    · subst hqp
      rw [hfile] at hdir
      simp at hdir
    · rw [hother q hqp] at hdir
      rcases hq q with h3 | ⟨_, h3⟩
      · rw [h3, hnone] at hdir
        simp at hdir
      · rw [h3] at hdir
        simpa using hdir.symm

/-- C7 amended, evaluated on the empty file system: the file is created with
mode 0600 and the directory with mode 0755. -/
theorem save_permissions_witness :
    (sampleStorage.SaveTokens sampleRecord emptyFS).1 = none ∧
      ((∃ m d, (sampleStorage.SaveTokens sampleRecord emptyFS).2.get
            (resolve sampleStorage.databasePath) = some (.file m d) ∧
          (emptyFS.get (resolve sampleStorage.databasePath) = none →
            m = emptyFS.applyUmask 0o600 ∧ m &&& 0o077 = 0)) ∧
        (∀ q m, emptyFS.get q = none →
          (sampleStorage.SaveTokens sampleRecord emptyFS).2.get q = some (.dir m) →
          m = emptyFS.applyUmask 0o755)) ∧
      emptyFS.applyUmask 0o600 = 0o600 ∧ emptyFS.applyUmask 0o755 = 0o755 :=
  ⟨by decide, save_permissions sampleStorage sampleRecord emptyFS _ (Prod.ext (by decide) rfl),
    by decide, by decide⟩

/-! ## C1: when `GetClient` succeeds -/

/-- C1 fails at the boundary: the stored record expires at the instant the
clock shows (`now = ExpiresAt`, so `now < ExpiresAt` is false), and `GetClient`
returns a client and no token-expired error. -/
theorem get_client_succeeds_at_expiry :
    sampleManager.storage.LoadTokens (fsWithTokens 0o600 (.json sampleDoc))
        = (some sampleRecord, none) ∧
      clockAtExpiry 0 = sampleRecord.ExpiresAt ∧
      ¬ (clockAtExpiry 0).nanos < sampleRecord.ExpiresAt.nanos ∧
      (sampleManager.GetClient (worldOf (fsWithTokens 0o600 (.json sampleDoc)) clockAtExpiry)).1
        = (some ⟨⟨"token-a", ""⟩⟩, none) := by
  decide

/-- C1, amended: `GetClient` succeeds if and only if `LoadTokens` returns a
record and the clock reading is not after `ExpiresAt` (`now ≤ ExpiresAt`); it
fails with the token-expired error and no client for every record with
`now > ExpiresAt`; the client it returns carries the record's tokens; an error
of `LoadTokens` is returned as it is, with no client. -/
theorem get_client_iff_not_after_expiry (am : AuthManager) (w : World) :
    ((∃ c, (am.GetClient w).1 = (some c, none)) ↔
        ∃ r, am.storage.LoadTokens w.fs = (some r, none) ∧
          (w.clock w.tick).nanos ≤ r.ExpiresAt.nanos) ∧
      (∀ r, am.storage.LoadTokens w.fs = (some r, none) →
        r.ExpiresAt.nanos < (w.clock w.tick).nanos →
        (am.GetClient w).1 = (none, some .tokenExpired)) ∧
      (∀ r, am.storage.LoadTokens w.fs = (some r, none) →
        (w.clock w.tick).nanos ≤ r.ExpiresAt.nanos →
        (am.GetClient w).1 = (some ⟨⟨r.DeveloperToken, r.UserToken⟩⟩, none)) ∧
      (∀ e, am.storage.LoadTokens w.fs = (none, some e) →
        (am.GetClient w).1 = (none, some e)) := by
  rcases GetClient_cases am w with ⟨e, h1, h2⟩ | ⟨r, h1, h2, h3⟩ | ⟨r, h1, h2, h3⟩
  · refine ⟨⟨?_, ?_⟩, ?_, ?_, ?_⟩
    · rintro ⟨c, hc⟩
      rw [h2] at hc
      simp at hc
    · rintro ⟨r, hr, _⟩
      rw [h1] at hr
      simp at hr
    · intro r hr
      rw [h1] at hr
      simp at hr
    · intro r hr
      rw [h1] at hr
      simp at hr
    · intro e1 he
      rw [h1] at he
      rw [h2]
      simpa using he
  · refine ⟨⟨?_, ?_⟩, ?_, ?_, ?_⟩
    · rintro ⟨c, hc⟩
      rw [h3] at hc
      simp at hc
    · rintro ⟨r1, hr, hle⟩
      rw [h1] at hr
      have e1 : r = r1 := by simpa using hr
      subst e1
      omega
    · intro r1 _ _
      rw [h3]
    · intro r1 hr hle
      rw [h1] at hr
      have e1 : r = r1 := by simpa using hr
      subst e1
      omega
    · intro e he
      rw [h1] at he
      simp at he
  · refine ⟨⟨?_, ?_⟩, ?_, ?_, ?_⟩
    · intro _
      exact ⟨r, h1, h2⟩
    · intro _
      exact ⟨_, by rw [h3]⟩
    · intro r1 hr hlt
      rw [h1] at hr
      have e1 : r = r1 := by simpa using hr
      subst e1
      omega
    · intro r1 hr _
      rw [h1] at hr
      have e1 : r = r1 := by simpa using hr
      subst e1
      rw [h3]
    · intro e he
      rw [h1] at he
      simp at he

/-- C1 amended, evaluated: one nanosecond after the expiry `GetClient` fails
with the token-expired error; at the expiry it returns the client. -/
theorem get_client_iff_not_after_expiry_witness :
    (sampleManager.GetClient
        (worldOf (fsWithTokens 0o600 (.json sampleDoc)) (fun _ => ⟨1746292000000000001⟩))).1
        = (none, some .tokenExpired) ∧
      (sampleManager.GetClient
        (worldOf (fsWithTokens 0o600 (.json sampleDoc)) (fun _ => ⟨1746292000000000000⟩))).1
        = (some ⟨⟨"token-a", ""⟩⟩, none) :=
  ⟨(get_client_iff_not_after_expiry sampleManager
      (worldOf (fsWithTokens 0o600 (.json sampleDoc)) (fun _ => ⟨1746292000000000001⟩))).2.1
      sampleRecord (by decide) (by decide),
    (get_client_iff_not_after_expiry sampleManager
      (worldOf (fsWithTokens 0o600 (.json sampleDoc)) (fun _ => ⟨1746292000000000000⟩))).2.2.1
      sampleRecord (by decide) (by decide)⟩

/-! ## C4: the token that is signed -/

/-- C4: for every issuer, key identifier and clock reading, whenever the key
file holds an ECDSA key `generateDeveloperToken` takes one clock reading `now`,
builds a token and hands that token to the signer.  The token has the claims
`iss = TeamID`, `iat` equal to `now` in whole Unix seconds (rounded down) and
`exp = iat + 15552000` (180 days) and no other claim, the signing method ES256,
and the header fields `alg = ES256` and `kid = KeyID`; `kid` is no claim.  What
the function returns is what the signer returns for this token: the signed
string and no error, or the empty string and the signing error. -/
theorem developer_token_contents (lib : Crypto) (am : AuthManager) (w : World)
    (d : FileData) (b ek : String)
    (hr : w.fs.ReadFile am.config.AppleMusic.PrivateKeyPath = .ok d)
    (hd : lib.Decode d = some b) (hp : lib.ParsePKCS8PrivateKey b = .ok (.ecdsa ek)) :
    ∃ token : Token,
      (am.generateDeveloperToken lib w).2.log = .signed token :: w.log ∧
      (am.generateDeveloperToken lib w).2.tick = w.tick + 1 ∧
      (∀ s, lib.SignedString token ek = .ok s →
        (am.generateDeveloperToken lib w).1 = (s, none)) ∧
      (∀ e, lib.SignedString token ek = .error e →
        (am.generateDeveloperToken lib w).1 = ("", some (.signToken e))) ∧
      token.Claims.lookup "iss" = some (.str am.config.AppleMusic.TeamID) ∧
      token.Claims.lookup "iat" = some (.int (w.clock w.tick).Unix) ∧
      (w.clock w.tick).Unix * 1000000000 ≤ (w.clock w.tick).nanos ∧
      (w.clock w.tick).nanos < ((w.clock w.tick).Unix + 1) * 1000000000 ∧
      token.Claims.lookup "exp" = some (.int ((w.clock w.tick).Unix + 15552000)) ∧
      (15552000 : Int) = 180 * 24 * 3600 ∧
      token.Claims.map Prod.fst = ["iss", "iat", "exp"] ∧
      token.Claims.lookup "kid" = none ∧
      token.Method = .ES256 ∧
      token.Header.lookup "alg" = some "ES256" ∧
      token.Header.lookup "kid" = some am.config.AppleMusic.KeyID := by
  have hexp := Unix_Add_validity (w.clock w.tick)
  have hres : ∀ r, lib.SignedString (am.newToken (w.clock w.tick)) ek = r →
      am.generateDeveloperToken lib w =
        ((match r with
          | .error err => ("", some (.signToken err))
          | .ok tokenString => (tokenString, none)),
          { w with tick := w.tick + 1,
                   log := .signed (am.newToken (w.clock w.tick)) :: w.log }) := by
    intro r hs
    unfold AuthManager.generateDeveloperToken
    simp only [hr, hd, hp, World.Now, hs]
    cases r <;> rfl
  have hall := hres _ rfl
  refine ⟨am.newToken (w.clock w.tick), ?_, ?_, ?_, ?_, rfl, rfl, ?_, ?_, ?_, by norm_num, rfl,
    rfl, rfl, rfl, ?_⟩
  · rw [hall]
  · rw [hall]
  · intro s hs
    rw [hres _ hs]
  · intro e hs
    rw [hres _ hs]
  · simp only [Time.Unix]
    omega
  · simp only [Time.Unix]
    omega
  · simp only [AuthManager.newToken, NewWithClaims, hexp]
    rfl
  · simp [AuthManager.newToken, NewWithClaims, mapSet, SigningMethod.Alg, List.lookup]

/-- C4, evaluated: the key file holds an ECDSA key and the clock reads
0.999999999 s after 2024-11-04T17:06:40Z; the token handed to the signer has
`iat = 1730740000` and `exp = 1746292000`, and the signed string is returned. -/
theorem developer_token_contents_witness :
    (sampleManager.generateDeveloperToken sampleCrypto
        (worldOf (fsWithKey "EC") (fun _ => ⟨1730740000999999999⟩))).1
        = ("TEST123.p256", none) ∧
      (sampleManager.generateDeveloperToken sampleCrypto
        (worldOf (fsWithKey "EC") (fun _ => ⟨1730740000999999999⟩))).2.log
        = [.signed ⟨.ES256, [("typ", "JWT"), ("alg", "ES256"), ("kid", "TESTKEY")],
            [("iss", .str "TEST123"), ("iat", .int 1730740000), ("exp", .int 1746292000)]⟩] ∧
      ∃ token : Token,
        (sampleManager.generateDeveloperToken sampleCrypto
          (worldOf (fsWithKey "EC") (fun _ => ⟨1730740000999999999⟩))).2.log
          = .signed token :: [] ∧
        token.Claims.lookup "iat" = some (.int 1730740000) ∧
        token.Claims.lookup "exp" = some (.int (1730740000 + 15552000)) ∧
        token.Header.lookup "kid" = some "TESTKEY" := by
  refine ⟨by decide, by decide, ?_⟩
  obtain ⟨token, h1, _, _, _, _, h6, _, _, h9, _, _, _, _, _, h15⟩ :=
    developer_token_contents sampleCrypto sampleManager
      (worldOf (fsWithKey "EC") (fun _ => ⟨1730740000999999999⟩)) (.raw "EC") "EC" "p256"
      rfl rfl rfl
  exact ⟨token, h1, h6, h9, h15⟩

/-! ## C8: the errors of key loading -/

/-- C8 fails: the key file holds a PEM block with a DSA private key, a key of
no elliptic-curve algorithm; `x509.ParsePKCS8PrivateKey` rejects the block, and
`generateDeveloperToken` fails with the key-parse error of line 106 and not
with the key-type error. -/
theorem non_ec_key_fails_with_parse_error :
    sampleBlockAlgorithm "DSA" = some .dsa ∧
      KeyAlgorithm.dsa.isEllipticCurve = false ∧
      sampleCrypto.Decode (.raw "DSA") = some "DSA" ∧
      sampleCrypto.ParsePKCS8PrivateKey "DSA" = .error "x509: unknown algorithm" ∧
      (sampleManager.generateDeveloperToken sampleCrypto
          (worldOf (fsWithKey "DSA") tickingClock)).1
        = ("", some (.parsePrivateKey "x509: unknown algorithm")) ∧
      (sampleManager.generateDeveloperToken sampleCrypto
          (worldOf (fsWithKey "DSA") tickingClock)).1 ≠ ("", some .notECDSA) :=
  ⟨rfl, rfl, rfl, rfl, by decide, by decide⟩

/-- C8, amended: `generateDeveloperToken` returns either a token and no error
or the empty string and an error, never a token together with an error.  When
the key file cannot be read it returns the key-read error; when the content
has no PEM block, the key-format error; when the block does not parse as a
PKCS#8 private key (as a key in another encoding or of an algorithm the parser
does not accept), the key-parse error; when the block parses to a private key
that is not an ECDSA key, the key-type error.  In each of these cases the
token is the empty string and nothing was signed: the world, its log
included, is unchanged, and the log changes only when an ECDSA key was
loaded.  With an ECDSA key the result is the signer's: the signed string, or
the empty string and the signing error. -/
theorem key_loading_errors (lib : Crypto) (am : AuthManager) (w : World) :
    ((am.generateDeveloperToken lib w).1.2 ≠ none → (am.generateDeveloperToken lib w).1.1 = "") ∧
      (∀ e, w.fs.ReadFile am.config.AppleMusic.PrivateKeyPath = .error e →
        am.generateDeveloperToken lib w = (("", some (.readPrivateKey e)), w)) ∧
      (∀ d, w.fs.ReadFile am.config.AppleMusic.PrivateKeyPath = .ok d → lib.Decode d = none →
        am.generateDeveloperToken lib w = (("", some .decodePEM), w)) ∧
      (∀ d b k, w.fs.ReadFile am.config.AppleMusic.PrivateKeyPath = .ok d →
        lib.Decode d = some b → lib.ParsePKCS8PrivateKey b = .ok k → (∀ ek, k ≠ .ecdsa ek) →
        am.generateDeveloperToken lib w = (("", some .notECDSA), w)) ∧
      (∀ d b e, w.fs.ReadFile am.config.AppleMusic.PrivateKeyPath = .ok d →
        lib.Decode d = some b → lib.ParsePKCS8PrivateKey b = .error e →
        am.generateDeveloperToken lib w = (("", some (.parsePrivateKey e)), w)) ∧
      AuthError.notECDSA.message = "private key is not ECDSA" ∧
      ((am.generateDeveloperToken lib w).2.log ≠ w.log →
        ∃ d b ek, w.fs.ReadFile am.config.AppleMusic.PrivateKeyPath = .ok d ∧
          lib.Decode d = some b ∧ lib.ParsePKCS8PrivateKey b = .ok (.ecdsa ek)) ∧
      ((∃ s, (am.generateDeveloperToken lib w).1 = (s, none)) ∨
        (∃ e, (am.generateDeveloperToken lib w).1 = ("", some e))) ∧
      (∀ d b ek, w.fs.ReadFile am.config.AppleMusic.PrivateKeyPath = .ok d →
        lib.Decode d = some b → lib.ParsePKCS8PrivateKey b = .ok (.ecdsa ek) →
        (∀ s, lib.SignedString (am.newToken (w.clock w.tick)) ek = .ok s →
          (am.generateDeveloperToken lib w).1 = (s, none)) ∧
        (∀ e, lib.SignedString (am.newToken (w.clock w.tick)) ek = .error e →
          (am.generateDeveloperToken lib w).1 = ("", some (.signToken e)))) ∧
      (∀ e, AuthError.readPrivateKey e ≠ .decodePEM ∧ AuthError.readPrivateKey e ≠ .notECDSA ∧
        AuthError.decodePEM ≠ .notECDSA ∧
        (∀ c, AuthError.parsePrivateKey c ≠ .notECDSA ∧ AuthError.parsePrivateKey c ≠ .decodePEM ∧
          AuthError.parsePrivateKey c ≠ .readPrivateKey e)) := by
  have hsign : ∀ d b ek, w.fs.ReadFile am.config.AppleMusic.PrivateKeyPath = .ok d →
      lib.Decode d = some b → lib.ParsePKCS8PrivateKey b = .ok (.ecdsa ek) →
      (∀ s, lib.SignedString (am.newToken (w.clock w.tick)) ek = .ok s →
        (am.generateDeveloperToken lib w).1 = (s, none)) ∧
      (∀ e, lib.SignedString (am.newToken (w.clock w.tick)) ek = .error e →
        (am.generateDeveloperToken lib w).1 = ("", some (.signToken e))) := by
    intro d b ek hr hd hp
    constructor
    · intro s hs
      unfold AuthManager.generateDeveloperToken
      simp only [hr, hd, hp, World.Now, hs]
    · intro e hs
      unfold AuthManager.generateDeveloperToken
      simp only [hr, hd, hp, World.Now, hs]
  have heither : (∃ s, (am.generateDeveloperToken lib w).1 = (s, none)) ∨
      (∃ e, (am.generateDeveloperToken lib w).1 = ("", some e)) := by
    rcases generateDeveloperToken_cases lib am w with ⟨e, _, h2⟩ | ⟨d, _, _, h2⟩ |
      ⟨d, b, e, _, _, _, h2⟩ | ⟨d, b, k, _, _, _, _, h2⟩ | ⟨d, b, ek, e, _, _, _, _, h2⟩ |
      ⟨d, b, ek, s1, _, _, _, _, h2⟩
    · exact Or.inr ⟨_, by rw [h2]⟩
    · exact Or.inr ⟨_, by rw [h2]⟩
    · exact Or.inr ⟨_, by rw [h2]⟩
    · exact Or.inr ⟨_, by rw [h2]⟩
    · exact Or.inr ⟨_, by rw [h2]⟩
    · exact Or.inl ⟨_, by rw [h2]⟩
  have hdistinct : ∀ e, AuthError.readPrivateKey e ≠ .decodePEM ∧
      AuthError.readPrivateKey e ≠ .notECDSA ∧ AuthError.decodePEM ≠ .notECDSA ∧
      (∀ c, AuthError.parsePrivateKey c ≠ .notECDSA ∧ AuthError.parsePrivateKey c ≠ .decodePEM ∧
        AuthError.parsePrivateKey c ≠ .readPrivateKey e) := by
    intro e
    refine ⟨by simp, by simp, by simp, fun c => ⟨by simp, by simp, by simp⟩⟩
  have hmain : ((am.generateDeveloperToken lib w).1.2 ≠ none →
        (am.generateDeveloperToken lib w).1.1 = "") ∧
      (∀ e, w.fs.ReadFile am.config.AppleMusic.PrivateKeyPath = .error e →
        am.generateDeveloperToken lib w = (("", some (.readPrivateKey e)), w)) ∧
      (∀ d, w.fs.ReadFile am.config.AppleMusic.PrivateKeyPath = .ok d → lib.Decode d = none →
        am.generateDeveloperToken lib w = (("", some .decodePEM), w)) ∧
      (∀ d b k, w.fs.ReadFile am.config.AppleMusic.PrivateKeyPath = .ok d →
        lib.Decode d = some b → lib.ParsePKCS8PrivateKey b = .ok k → (∀ ek, k ≠ .ecdsa ek) →
        am.generateDeveloperToken lib w = (("", some .notECDSA), w)) ∧
      (∀ d b e, w.fs.ReadFile am.config.AppleMusic.PrivateKeyPath = .ok d →
        lib.Decode d = some b → lib.ParsePKCS8PrivateKey b = .error e →
        am.generateDeveloperToken lib w = (("", some (.parsePrivateKey e)), w)) ∧
      AuthError.notECDSA.message = "private key is not ECDSA" ∧
      ((am.generateDeveloperToken lib w).2.log ≠ w.log →
        ∃ d b ek, w.fs.ReadFile am.config.AppleMusic.PrivateKeyPath = .ok d ∧
          lib.Decode d = some b ∧ lib.ParsePKCS8PrivateKey b = .ok (.ecdsa ek)) := by
    rcases generateDeveloperToken_cases lib am w with ⟨e, h1, h2⟩ | ⟨d, h1, hd, h2⟩ |
      ⟨d, b, e, h1, hd, hp, h2⟩ | ⟨d, b, k, h1, hd, hp, hk, h2⟩ |
      ⟨d, b, ek, e, h1, hd, hp, _, h2⟩ | ⟨d, b, ek, s1, h1, hd, hp, _, h2⟩
    · refine ⟨by rw [h2]; simp, ?_, ?_, ?_, ?_, rfl, ?_⟩
      · intro e1 he
        rw [h1] at he
        rw [h2, ← Except.error.inj he]
      · intro d hr
        rw [h1] at hr
        simp at hr
      · intro d b k hr
        rw [h1] at hr
        simp at hr
      · intro d b e1 hr
        rw [h1] at hr
        simp at hr
      · intro hl
        rw [h2] at hl
        exact absurd rfl hl
    · refine ⟨by rw [h2]; simp, ?_, ?_, ?_, ?_, rfl, ?_⟩
      · intro e1 he
        rw [h1] at he
        simp at he
      · intro d1 _ _
        exact h2
      · intro d1 b k hr hd1
        rw [h1] at hr
        rw [← Except.ok.inj hr, hd] at hd1
        simp at hd1
      · intro d1 b e1 hr hd1
        rw [h1] at hr
        rw [← Except.ok.inj hr, hd] at hd1
        simp at hd1
      · intro hl
        rw [h2] at hl
        exact absurd rfl hl
    · refine ⟨by rw [h2]; simp, ?_, ?_, ?_, ?_, rfl, ?_⟩
      · intro e1 he
        rw [h1] at he
        simp at he
      · intro d1 hr hd1
        rw [h1] at hr
        rw [← Except.ok.inj hr, hd] at hd1
        simp at hd1
      · intro d1 b1 k hr hd1 hp1
        rw [h1] at hr
        rw [← Except.ok.inj hr, hd] at hd1
        rw [← Option.some.inj hd1, hp] at hp1
        simp at hp1
      · intro d1 b1 e1 hr hd1 hp1
        rw [h1] at hr
        rw [← Except.ok.inj hr, hd] at hd1
        rw [← Option.some.inj hd1, hp] at hp1
        rw [h2, Except.error.inj hp1]
      · intro hl
        rw [h2] at hl
        exact absurd rfl hl
    · refine ⟨by rw [h2]; simp, ?_, ?_, ?_, ?_, rfl, ?_⟩
      · intro e1 he
        rw [h1] at he
        simp at he
      · intro d1 hr hd1
        rw [h1] at hr
        rw [← Except.ok.inj hr, hd] at hd1
        simp at hd1
      · intro d1 b1 k1 _ _ _ _
        exact h2
      · intro d1 b1 e1 hr hd1 hp1
        rw [h1] at hr
        rw [← Except.ok.inj hr, hd] at hd1
        rw [← Option.some.inj hd1, hp] at hp1
        simp at hp1
      · intro hl
        rw [h2] at hl
        exact absurd rfl hl
    · refine ⟨by rw [h2]; simp, ?_, ?_, ?_, ?_, rfl, ?_⟩
      · intro e1 he
        rw [h1] at he
        simp at he
      · intro d1 hr hd1
        rw [h1] at hr
        rw [← Except.ok.inj hr, hd] at hd1
        simp at hd1
      · intro d1 b1 k hr hd1 hp1 hk
        rw [h1] at hr
        rw [← Except.ok.inj hr, hd] at hd1
        rw [← Option.some.inj hd1, hp] at hp1
        exact absurd (Except.ok.inj hp1).symm (hk ek)
      · intro d1 b1 e1 hr hd1 hp1
        rw [h1] at hr
        rw [← Except.ok.inj hr, hd] at hd1
        rw [← Option.some.inj hd1, hp] at hp1
        simp at hp1
      · intro _
        exact ⟨d, b, ek, h1, hd, hp⟩
    · refine ⟨by rw [h2]; simp, ?_, ?_, ?_, ?_, rfl, ?_⟩
      · intro e1 he
        rw [h1] at he
        simp at he
      · intro d1 hr hd1
        rw [h1] at hr
        rw [← Except.ok.inj hr, hd] at hd1
        simp at hd1
      · intro d1 b1 k hr hd1 hp1 hk
        rw [h1] at hr
        rw [← Except.ok.inj hr, hd] at hd1
        rw [← Option.some.inj hd1, hp] at hp1
        exact absurd (Except.ok.inj hp1).symm (hk ek)
      · intro d1 b1 e1 hr hd1 hp1
        rw [h1] at hr
        rw [← Except.ok.inj hr, hd] at hd1
        rw [← Option.some.inj hd1, hp] at hp1
        simp at hp1
      · intro _
        exact ⟨d, b, ek, h1, hd, hp⟩
  obtain ⟨m1, m2, m3, m4, m5, m6, m7⟩ := hmain
  exact ⟨m1, m2, m3, m4, m5, m6, m7, heither, hsign, hdistinct⟩

/-- C8 amended, evaluated: no key file, a key file without a PEM block, a key
file whose block holds an RSA key, and one whose block the parser rejects. -/
theorem key_loading_errors_witness :
    (sampleManager.generateDeveloperToken sampleCrypto (worldOf emptyFS tickingClock)).1
        = ("", some (.readPrivateKey .ENOENT)) ∧
      (sampleManager.generateDeveloperToken sampleCrypto
          (worldOf (fsWithKey "garbage") tickingClock)).1 = ("", some .decodePEM) ∧
      (sampleManager.generateDeveloperToken sampleCrypto
          (worldOf (fsWithKey "RSA") tickingClock)).1 = ("", some .notECDSA) ∧
      (sampleManager.generateDeveloperToken sampleCrypto
          (worldOf (fsWithKey "RSA") tickingClock)).2.log = [] ∧
      (sampleManager.generateDeveloperToken sampleCrypto
          (worldOf (fsWithKey "DSA") tickingClock)).1
        = ("", some (.parsePrivateKey "x509: unknown algorithm")) ∧
      (sampleManager.generateDeveloperToken sampleCrypto
          (worldOf (fsWithKey "EC") tickingClock)).1 = ("TEST123.p256", none) :=
  ⟨congrArg Prod.fst
      ((key_loading_errors sampleCrypto sampleManager (worldOf emptyFS tickingClock)).2.1
        .ENOENT rfl),
    congrArg Prod.fst
      ((key_loading_errors sampleCrypto sampleManager
        (worldOf (fsWithKey "garbage") tickingClock)).2.2.1 (.raw "garbage") rfl rfl),
    congrArg Prod.fst
      ((key_loading_errors sampleCrypto sampleManager
        (worldOf (fsWithKey "RSA") tickingClock)).2.2.2.1 (.raw "RSA") "RSA" (.rsa "rsa2048")
        rfl rfl rfl (by simp)),
    congrArg (fun x => x.2.log)
      ((key_loading_errors sampleCrypto sampleManager
        (worldOf (fsWithKey "RSA") tickingClock)).2.2.2.1 (.raw "RSA") "RSA" (.rsa "rsa2048")
        rfl rfl rfl (by simp)),
    congrArg Prod.fst
      ((key_loading_errors sampleCrypto sampleManager
        (worldOf (fsWithKey "DSA") tickingClock)).2.2.2.2.1 (.raw "DSA") "DSA"
        "x509: unknown algorithm" rfl rfl rfl),
    ((key_loading_errors sampleCrypto sampleManager
        (worldOf (fsWithKey "EC") tickingClock)).2.2.2.2.2.2.2.2.1 (.raw "EC") "EC" "p256"
        rfl rfl rfl).1 "TEST123.p256" rfl⟩

/-! ## C3: the timestamps of the persisted record -/

/-- C3 fails: with a clock that advances one second per reading, a successful
`Authenticate` signs a token with `iat = 1730740000` and persists a record
whose `CreatedAt` is two seconds later and whose `ExpiresAt` is one second
before `CreatedAt` plus 180 days. -/
theorem authenticate_rereads_clock :
    (sampleManager.Authenticate sampleCrypto (worldOf (fsWithKey "EC") tickingClock)).1 = none ∧
      sampleManager.storage.LoadTokens
          (sampleManager.Authenticate sampleCrypto (worldOf (fsWithKey "EC") tickingClock)).2.fs
        = (some ⟨"TEST123.p256", "", ⟨1746292001000000000⟩, ⟨1730740002000000000⟩⟩, none) ∧
      (sampleManager.Authenticate sampleCrypto (worldOf (fsWithKey "EC") tickingClock)).2.log.getLast?
        = some (.signed (sampleManager.newToken ⟨1730740000000000000⟩)) ∧
      (sampleManager.newToken ⟨1730740000000000000⟩).Claims
        = [("iss", .str "TEST123"), ("iat", .int 1730740000), ("exp", .int 1746292000)] ∧
      (⟨1730740002000000000⟩ : Time).Unix ≠ 1730740000 ∧
      (⟨1746292001000000000⟩ : Time).Unix ≠ 1746292000 ∧
      (⟨1746292001000000000⟩ : Time) ≠ (⟨1730740002000000000⟩ : Time).Add validity := by
  decide

/-- C3, amended: a successful `Authenticate` takes three clock readings.  The
token it signs has `iat` and `exp` from the first; the record it persists has
`ExpiresAt` equal to the second reading plus 180 days and `CreatedAt` equal to
the third, the signed token as `DeveloperToken` and no user token.  So
`ExpiresAt = CreatedAt + 180 days` exactly when the second and third readings
are equal. -/
theorem authenticate_timestamps (lib : Crypto) (am : AuthManager) (w w1 : World)
    (h : am.Authenticate lib w = (none, w1)) :
    ∃ r key, am.storage.LoadTokens w1.fs = (some r, none) ∧
      lib.SignedString (am.newToken (w.clock w.tick)) key = .ok r.DeveloperToken ∧
      (am.newToken (w.clock w.tick)).Claims.lookup "iat" = some (.int (w.clock w.tick).Unix) ∧
      (am.newToken (w.clock w.tick)).Claims.lookup "exp"
        = some (.int ((w.clock w.tick).Unix + 15552000)) ∧
      r.UserToken = "" ∧
      r.ExpiresAt = (w.clock (w.tick + 1)).Add validity ∧
      r.CreatedAt = w.clock (w.tick + 2) ∧
      w1.tick = w.tick + 3 ∧
      (r.ExpiresAt = r.CreatedAt.Add validity ↔ w.clock (w.tick + 1) = w.clock (w.tick + 2)) := by
  unfold AuthManager.Authenticate at h
  rcases generateDeveloperToken_cases lib am w with ⟨e, _, h2⟩ | ⟨d, _, _, h2⟩ |
    ⟨d, b, e, _, _, _, h2⟩ | ⟨d, b, k, _, _, _, _, h2⟩ | ⟨d, b, ek, e, _, _, _, _, h2⟩ |
    ⟨d, b, ek, s, _, _, _, hs, h2⟩
  · rw [h2] at h
    simp at h
  · rw [h2] at h
    simp at h
  · rw [h2] at h
    simp at h
  · rw [h2] at h
    simp at h
  · rw [h2] at h
    simp at h
  · rw [h2] at h
    simp only [World.Now] at h
    generalize hrec : (⟨s, "", (w.clock (w.tick + 1)).Add validity,
      w.clock (w.tick + 1 + 1)⟩ : TokenData) = saved at h
    rcases hsave : am.storage.SaveTokens saved w.fs with ⟨err, fs1⟩
    rw [hsave] at h
    cases err with
    | some e => simp at h
    | none =>
      simp only [World.Println] at h
      have hw := (Prod.mk.inj h).2
      subst hw
      have hload := LoadTokens_SaveTokens am.storage saved w.fs fs1 hsave
      have hexp := Unix_Add_validity (w.clock w.tick)
      refine ⟨saved, ek, hload, ?_, rfl, ?_, ?_, ?_, ?_, rfl, ?_⟩
      · rw [← hrec]
        exact hs
      · simp only [AuthManager.newToken, NewWithClaims, hexp]
        rfl
      · rw [← hrec]
      · rw [← hrec]
      · rw [← hrec]
      · rw [← hrec]
        simp only [Time.Add]
        constructor
        · intro he
          have hn : (w.clock (w.tick + 1)).nanos = (w.clock (w.tick + 1 + 1)).nanos := by
            have := congrArg Time.nanos he
            simp only at this
            omega
          cases hc1 : w.clock (w.tick + 1)
          cases hc2 : w.clock (w.tick + 1 + 1)
          rw [hc1, hc2] at hn
          simp only at hn
          rw [hn]
        · intro he
          rw [he]

/-- C3 amended, evaluated on the ticking clock. -/
theorem authenticate_timestamps_witness :
    (sampleManager.Authenticate sampleCrypto (worldOf (fsWithKey "EC") tickingClock)).1 = none ∧
      ∃ r key, sampleManager.storage.LoadTokens
            (sampleManager.Authenticate sampleCrypto
              (worldOf (fsWithKey "EC") tickingClock)).2.fs = (some r, none) ∧
        sampleCrypto.SignedString (sampleManager.newToken (tickingClock 0)) key
          = .ok r.DeveloperToken ∧
        (sampleManager.newToken (tickingClock 0)).Claims.lookup "iat"
          = some (.int (tickingClock 0).Unix) ∧
        (sampleManager.newToken (tickingClock 0)).Claims.lookup "exp"
          = some (.int ((tickingClock 0).Unix + 15552000)) ∧
        r.UserToken = "" ∧
        r.ExpiresAt = (tickingClock 1).Add validity ∧
        r.CreatedAt = tickingClock 2 ∧
        (sampleManager.Authenticate sampleCrypto
          (worldOf (fsWithKey "EC") tickingClock)).2.tick = 3 ∧
        (r.ExpiresAt = r.CreatedAt.Add validity ↔ tickingClock 1 = tickingClock 2) :=
  ⟨by decide,
    authenticate_timestamps sampleCrypto sampleManager (worldOf (fsWithKey "EC") tickingClock) _
      (Prod.ext (by decide) rfl)⟩

/-! ## C9: the status operation and the network -/

/-- C9 fails: with the same stored record and the same clock, `GetUserInfo`
sends a request in both runs, returns the account information when the remote
service answers and an error when it cannot be reached. -/
theorem user_info_calls_remote :
    (sampleManager.GetUserInfo remoteUp
        (worldOf (fsWithTokens 0o600 (.json sampleDoc)) tickingClock)).1.2 = none ∧
      (sampleManager.GetUserInfo remoteUp
        (worldOf (fsWithTokens 0o600 (.json sampleDoc)) tickingClock)).1.1.isSome = true ∧
      (sampleManager.GetUserInfo remoteDown
        (worldOf (fsWithTokens 0o600 (.json sampleDoc)) tickingClock)).1
        = (none, some (.getStorefront "dial tcp: connection refused")) ∧
      (sampleManager.GetUserInfo remoteUp
        (worldOf (fsWithTokens 0o600 (.json sampleDoc)) tickingClock)).2.log
        = [.http ⟨"token-a", ""⟩] ∧
      (sampleManager.GetUserInfo remoteDown
        (worldOf (fsWithTokens 0o600 (.json sampleDoc)) tickingClock)).2.log
        = [.http ⟨"token-a", ""⟩] := by
  decide

/-- C9, amended: `GetUserInfo` makes no outbound call only when `GetClient`
fails (no record, unreadable or undecodable file, expired token), and then
returns that error whatever the remote service would answer.  When `GetClient`
succeeds it sends exactly one request through the client's transport; if the
request fails it returns the storefront error and no information; otherwise it
returns the authentication state, the status of the response, the first
storefront of the answer (none when the answer has none) and, from the stored
record, the creation time, the expiry and whether a user token is present. -/
theorem user_info_result (remote : Transport → StorefrontReply) (am : AuthManager) (w : World) :
    (∀ e w1, am.GetClient w = ((none, some e), w1) →
        am.GetUserInfo remote w = ((none, some e), w1) ∧ w1.log = w.log) ∧
      (∀ c w1, am.GetClient w = ((some c, none), w1) →
        (am.GetUserInfo remote w).2.log = .http c.transport :: w.log ∧
        (∀ e, (remote c.transport).err = some e →
          (am.GetUserInfo remote w).1 = (none, some (.getStorefront e))) ∧
        ((remote c.transport).err = none →
          ∃ info r, (am.GetUserInfo remote w).1 = (some info, none) ∧
            am.storage.LoadTokens w.fs = (some r, none) ∧
            info.authentication_status = "authenticated" ∧
            info.token_type = "developer_token" ∧
            info.api_response_status = (remote c.transport).resp ∧
            info.storefront = ((remote c.transport).storefronts.bind List.head?).map
              (fun s => ⟨s.Id, s.Kind, s.Name, s.DefaultLanguageTag, s.SupportedLanguageTags⟩) ∧
            info.token_created = some r.CreatedAt ∧
            info.token_expires = some r.ExpiresAt ∧
            info.has_user_token = some (decide (r.UserToken ≠ "")))) := by
  rcases GetClient_cases am w with ⟨e, h1, h2⟩ | ⟨r, h1, h2, h3⟩ | ⟨r, h1, h2, h3⟩
  · constructor
    · intro e1 w1 hc
      rw [h2] at hc
      have e1' := (Prod.mk.inj hc).2
      subst e1'
      unfold AuthManager.GetUserInfo
      rw [h2]
      exact ⟨by simpa using hc, rfl⟩
    · intro c w1 hc
      rw [h2] at hc
      simp at hc
  · constructor
    · intro e1 w1 hc
      rw [h3] at hc
      have e1' := (Prod.mk.inj hc).2
      subst e1'
      unfold AuthManager.GetUserInfo
      rw [h3]
      exact ⟨by simpa using hc, rfl⟩
    · intro c w1 hc
      rw [h3] at hc
      simp at hc
  · constructor
    · intro e1 w1 hc
      rw [h3] at hc
      simp at hc
    · intro c w1 hc
      rw [h3] at hc
      have hc1 : c = ⟨⟨r.DeveloperToken, r.UserToken⟩⟩ := by
        have := (Prod.mk.inj (Prod.mk.inj hc).1).1
        exact (Option.some.inj this).symm
      subst hc1
      unfold AuthManager.GetUserInfo
      rw [h3]
      simp only
      cases herr : (remote ⟨r.DeveloperToken, r.UserToken⟩).err with
      | some e =>
        refine ⟨rfl, ?_, ?_⟩
        · intro e1 he
          rw [← Option.some.inj he]
        · intro he
          simp at he
      | none =>
        refine ⟨rfl, ?_, ?_⟩
        · intro e1 he
          simp at he
        · intro _
          simp only [h1]
          refine ⟨_, r, rfl, rfl, ?_, ?_, ?_, ?_, rfl, rfl, rfl⟩
          · cases (remote ⟨r.DeveloperToken, r.UserToken⟩).storefronts with
            | none => cases (remote ⟨r.DeveloperToken, r.UserToken⟩).resp <;> rfl
            | some l =>
              cases l <;> cases (remote ⟨r.DeveloperToken, r.UserToken⟩).resp <;> rfl
          · cases (remote ⟨r.DeveloperToken, r.UserToken⟩).storefronts with
            | none => cases (remote ⟨r.DeveloperToken, r.UserToken⟩).resp <;> rfl
            | some l =>
              cases l <;> cases (remote ⟨r.DeveloperToken, r.UserToken⟩).resp <;> rfl
          · cases (remote ⟨r.DeveloperToken, r.UserToken⟩).storefronts with
            | none => cases (remote ⟨r.DeveloperToken, r.UserToken⟩).resp <;> rfl
            | some l =>
              cases l <;> cases (remote ⟨r.DeveloperToken, r.UserToken⟩).resp <;> rfl
          · cases (remote ⟨r.DeveloperToken, r.UserToken⟩).storefronts with
            | none => cases (remote ⟨r.DeveloperToken, r.UserToken⟩).resp <;> rfl
            | some l =>
              cases l <;> cases (remote ⟨r.DeveloperToken, r.UserToken⟩).resp <;> rfl

/-- C9 amended, evaluated: nothing stored, so no request is sent; a record
stored and the service down, so one request is sent and fails; a record stored
and the service up, so the storefront of the answer is reported. -/
theorem user_info_result_witness :
    sampleManager.GetUserInfo remoteDown (worldOf emptyFS tickingClock)
        = ((none, some .noTokens), worldOf emptyFS tickingClock) ∧
      (worldOf emptyFS tickingClock).log = [] ∧
      (sampleManager.GetUserInfo remoteDown
        (worldOf (fsWithTokens 0o600 (.json sampleDoc)) tickingClock)).2.log
        = [.http ⟨"token-a", ""⟩] ∧
      (sampleManager.GetUserInfo remoteDown
        (worldOf (fsWithTokens 0o600 (.json sampleDoc)) tickingClock)).1
        = (none, some (.getStorefront "dial tcp: connection refused")) ∧
      (sampleManager.GetUserInfo remoteUp
        (worldOf (fsWithTokens 0o600 (.json sampleDoc)) tickingClock)).1
        = (some ⟨"authenticated", "developer_token",
            some ⟨"us", "storefronts", "United States", "en-US", ["en-US"]⟩, some "200 OK",
            some ⟨1730740000000000000⟩, some ⟨1746292000000000000⟩, some false⟩, none) ∧
      ∃ info r, (sampleManager.GetUserInfo remoteUp
            (worldOf (fsWithTokens 0o600 (.json sampleDoc)) tickingClock)).1 = (some info, none) ∧
        sampleManager.storage.LoadTokens (fsWithTokens 0o600 (.json sampleDoc))
          = (some r, none) ∧
        info.authentication_status = "authenticated" ∧
        info.token_type = "developer_token" ∧
        info.api_response_status = some "200 OK" ∧
        info.storefront = some ⟨"us", "storefronts", "United States", "en-US", ["en-US"]⟩ ∧
        info.token_created = some r.CreatedAt ∧
        info.token_expires = some r.ExpiresAt ∧
        info.has_user_token = some (decide (r.UserToken ≠ "")) :=
  ⟨((user_info_result remoteDown sampleManager (worldOf emptyFS tickingClock)).1
      .noTokens _ rfl).1,
    rfl,
    ((user_info_result remoteDown sampleManager
      (worldOf (fsWithTokens 0o600 (.json sampleDoc)) tickingClock)).2
      ⟨⟨"token-a", ""⟩⟩ _ rfl).1,
    ((user_info_result remoteDown sampleManager
      (worldOf (fsWithTokens 0o600 (.json sampleDoc)) tickingClock)).2
      ⟨⟨"token-a", ""⟩⟩ _ rfl).2.1 _ rfl,
    by decide,
    ((user_info_result remoteUp sampleManager
      (worldOf (fsWithTokens 0o600 (.json sampleDoc)) tickingClock)).2
      ⟨⟨"token-a", ""⟩⟩ _ rfl).2.2 rfl⟩

/-! ## C10: `Config.Validate` -/

/-- C10 fails: a configuration with an empty storage path whose key file exists
is valid for `Validate`. -/
theorem validate_ignores_storage_path :
    (⟨⟨"TEST123", "KEY123", "/key.p8"⟩, ⟨""⟩⟩ : Config).Validate (fsWithKey "EC") = none ∧
      (⟨⟨"TEST123", "KEY123", "/key.p8"⟩, ⟨""⟩⟩ : Config).Storage.DatabasePath = "" := by
  decide

/-- C10, amended: `Validate` returns an error whenever `TeamID`, `KeyID` or
`PrivateKeyPath` is empty or `os.Stat` reports that nothing exists at
`PrivateKeyPath`, and it returns nil exactly when the three are not empty and
`os.Stat` does not report that; the storage path is not looked at.  (A
configuration that `LoadFromPath` returns has a storage path that is not
empty.) -/
theorem validate_iff (c : Config) (fs : FS) :
    (c.Validate fs = none ↔
        c.AppleMusic.TeamID ≠ "" ∧ c.AppleMusic.KeyID ≠ "" ∧ c.AppleMusic.PrivateKeyPath ≠ "" ∧
          fs.Stat c.AppleMusic.PrivateKeyPath ≠ .error .ENOENT) ∧
      (c.AppleMusic.TeamID = "" → c.Validate fs = some .teamIDRequired) ∧
      (c.AppleMusic.TeamID ≠ "" → c.AppleMusic.KeyID = "" →
        c.Validate fs = some .keyIDRequired) ∧
      (c.AppleMusic.TeamID ≠ "" → c.AppleMusic.KeyID ≠ "" → c.AppleMusic.PrivateKeyPath = "" →
        c.Validate fs = some .privateKeyPathRequired) ∧
      (c.AppleMusic.TeamID ≠ "" → c.AppleMusic.KeyID ≠ "" → c.AppleMusic.PrivateKeyPath ≠ "" →
        fs.Stat c.AppleMusic.PrivateKeyPath = .error .ENOENT →
        c.Validate fs = some (.privateKeyNotFound c.AppleMusic.PrivateKeyPath)) ∧
      (∀ s, c.Validate fs = ({ c with Storage := { DatabasePath := s } } : Config).Validate fs) ∧
      (∀ (yamlUnmarshal : FileData → Except String Config) (homeDir path : String)
        (loaded : Config),
        LoadFromPath yamlUnmarshal homeDir fs path = (some loaded, none) →
        loaded.Storage.DatabasePath ≠ "") := by
  refine ⟨?_, ?_, ?_, ?_, ?_, ?_, ?_⟩
  · unfold Config.Validate
    by_cases h1 : c.AppleMusic.TeamID = ""
    · simp [h1]
    by_cases h2 : c.AppleMusic.KeyID = ""
    · simp [h1, h2]
    by_cases h3 : c.AppleMusic.PrivateKeyPath = ""
    · simp [h1, h2, h3]
    simp only [h1, h2, h3, if_false]
    cases hs : fs.Stat c.AppleMusic.PrivateKeyPath with
    | ok n => simp [h1, h2, h3]
    | error e => cases e <;> simp [Errno.IsNotExist, h1, h2, h3]
  · intro h1
    simp [Config.Validate, h1]
  · intro h1 h2
    simp [Config.Validate, h1, h2]
  · intro h1 h2 h3
    simp [Config.Validate, h1, h2, h3]
  · intro h1 h2 h3 h4
    simp [Config.Validate, h1, h2, h3, h4, Errno.IsNotExist]
  · intro s
    rfl
  · intro yamlUnmarshal homeDir path loaded h
    rcases LoadFromPath_cases yamlUnmarshal homeDir fs path loaded h with h1 | h1 | h1
    · rw [h1]
      exact DefaultConfig_DatabasePath homeDir
    · exact h1
    · rw [h1]
      exact DefaultConfig_DatabasePath homeDir

/-- C10 amended, evaluated: the configuration of the test `valid config`, with
the key file present and with it absent. -/
theorem validate_iff_witness :
    (⟨⟨"TEST123", "KEY123", "/key.p8"⟩, ⟨""⟩⟩ : Config).Validate (fsWithKey "EC") = none ∧
      (⟨⟨"TEST123", "KEY123", "/key.p8"⟩, ⟨""⟩⟩ : Config).Validate emptyFS
        = some (.privateKeyNotFound "/key.p8") :=
  ⟨((validate_iff ⟨⟨"TEST123", "KEY123", "/key.p8"⟩, ⟨""⟩⟩ (fsWithKey "EC")).1).2
      ⟨by decide, by decide, by decide, by
        intro h
        have h2 : (fsWithKey "EC").Stat "/key.p8" = .ok (.file 0o600 (.raw "EC")) := rfl
        rw [h2] at h
        exact Except.noConfusion h⟩,
    (validate_iff ⟨⟨"TEST123", "KEY123", "/key.p8"⟩, ⟨""⟩⟩ emptyFS).2.2.2.2.1
      (by decide) (by decide) (by decide) rfl⟩

end AppleMusic
